import Mathlib

set_option maxHeartbeats 1000000
set_option maxRecDepth 4000

/-!
Verification of the Ludwig Ray Tune hyperopt execution engine
(`ludwig/hyperopt/execution.py`).

The development embeds, as Lean functions, the pure logic of:
search-space encoding/decoding (`encode_values` / `decode_values`,
including a model of Python's `json.dumps` / `json.loads` on the JSON data
model), metric extraction (`_has_metric`, `get_metric_score`,
`get_metric_score_from_train_stats`, `get_metric_score_from_eval_stats`,
`_has_eval_metric`), trial-result ordering and evaluation backfill inside
`execute`, the checkpoint-staging function `checkpoint`, the resume move in
`RayTuneReportCallback.on_trainer_train_setup`, the hyperparameter file
write in `_run_experiment`, and the attribute environment relevant to
`sort_hyperopt_results`.
-/

/-! ### Definitions -/

/-! ## Python values in the JSON data model

`JVal` models the Python values handled by the search-space codec: ints
(Python `bool` is modelled separately, as in Python `isinstance(True, int)`
holds and is accounted for in `isNumericPy`), strings, booleans, `None`,
lists and string-keyed dicts.  Floats are outside the model.  -/
inductive JVal where
  | jnum (n : Int)
  | jstr (s : String)
  | jbool (b : Bool)
  | jnull
  | jarr (elems : List JVal)
  | jobj (members : List (String × JVal))

/-- Decimal digit characters. -/
def digitChar (d : Nat) : Char := ("0123456789".toList).getD d '*'

/-- Lowercase hexadecimal digit characters, as produced by Python's
json string escaping. -/
def hexChar (d : Nat) : Char := ("0123456789abcdef".toList).getD d '*'

/-- Test for an ASCII decimal digit. -/
def isDig (c : Char) : Bool := decide (48 ≤ c.toNat ∧ c.toNat ≤ 57)

/-- Numeric value of an ASCII decimal digit. -/
def digVal (c : Char) : Nat := c.toNat - 48

/-- Numeric value of a lowercase hexadecimal digit, if any. -/
def hexVal (c : Char) : Option Nat :=
  if 48 ≤ c.toNat ∧ c.toNat ≤ 57 then some (c.toNat - 48)
  else if 97 ≤ c.toNat ∧ c.toNat ≤ 102 then some (c.toNat - 87)
  else none

/-- Decimal digits of `n`, most significant first; `[]` for `n = 0`.
The first argument is structural fuel (any value `≥ n` is exact). -/
def natDigitsAux : Nat → Nat → List Char
  | 0, _ => []
  | fuel + 1, n =>
    if n = 0 then [] else natDigitsAux fuel (n / 10) ++ [digitChar (n % 10)]

/-- Python's decimal rendering of a natural number. -/
def serNat (n : Nat) : List Char :=
  if n = 0 then ['0'] else natDigitsAux n n

/-- Python's decimal rendering of an int (`json.dumps` on `int`). -/
def serInt (i : Int) : List Char :=
  if i < 0 then '-' :: serNat i.natAbs else serNat i.toNat

/-- Escape of one character inside a JSON string, following Python's
`json.encoder` escape table (with `ensure_ascii=False`, so characters at
or above `0x20` other than `"` and `\` are emitted literally). -/
def escChar (c : Char) : List Char :=
  if c = '"' then ['\\', '"']
  else if c = '\\' then ['\\', '\\']
  else if c = '\n' then ['\\', 'n']
  else if c = '\t' then ['\\', 't']
  else if c = '\r' then ['\\', 'r']
  else if c.toNat = 8 then ['\\', 'b']
  else if c.toNat = 12 then ['\\', 'f']
  else if c.toNat < 32 then ['\\', 'u', '0', '0', hexChar (c.toNat / 16), hexChar (c.toNat % 16)]
  else [c]

/-- Escape a character sequence for a JSON string body. -/
def escapeChars : List Char → List Char
  | [] => []
  | c :: cs => escChar c ++ escapeChars cs

/-- Serialization of a Python string (`json.dumps` on `str`). -/
def serStr (s : String) : List Char :=
  '"' :: escapeChars s.data ++ ['"']

mutual
/-- Serialization of a JSON value with Python's default separators
(`", "` and `": "`), i.e. the output of `json.dumps`. -/
def serVal : JVal → List Char
  | .jnum i => serInt i
  | .jstr s => serStr s
  | .jbool true => ['t', 'r', 'u', 'e']
  | .jbool false => ['f', 'a', 'l', 's', 'e']
  | .jnull => ['n', 'u', 'l', 'l']
  | .jarr [] => ['[', ']']
  | .jarr (x :: xs) => '[' :: (serVal x ++ serElemsTail xs)
  | .jobj [] => ['{', '}']
  | .jobj ((k, v) :: ms) =>
    '{' :: (serStr k ++ ':' :: ' ' :: serVal v ++ serMembersTail ms)

/-- Serialization of the remaining list elements after the first. -/
def serElemsTail : List JVal → List Char
  | [] => [']']
  | y :: ys => ',' :: ' ' :: (serVal y ++ serElemsTail ys)

/-- Serialization of the remaining object members after the first. -/
def serMembersTail : List (String × JVal) → List Char
  | [] => ['}']
  | (k, v) :: ms => ',' :: ' ' :: (serStr k ++ ':' :: ' ' :: serVal v ++ serMembersTail ms)
end

/-- Parse the body of a JSON string after the opening quote, returning
the decoded characters together with the input after the closing quote.
The first argument is structural fuel (one unit per escape group; any
value above the input length is exact). -/
def parseStrBody : Nat → List Char → Option (List Char × List Char)
  | 0, _ => none
  | fuel + 1, input =>
    match input with
    | [] => none
    | c :: rest =>
      if c = '"' then some ([], rest)
      else if c = '\\' then
        match rest with
        | [] => none
        | e :: rest2 =>
          if e = '"' then (parseStrBody fuel rest2).map (fun p => ('"' :: p.1, p.2))
          else if e = '\\' then (parseStrBody fuel rest2).map (fun p => ('\\' :: p.1, p.2))
          else if e = 'n' then (parseStrBody fuel rest2).map (fun p => ('\n' :: p.1, p.2))
          else if e = 't' then (parseStrBody fuel rest2).map (fun p => ('\t' :: p.1, p.2))
          else if e = 'r' then (parseStrBody fuel rest2).map (fun p => ('\r' :: p.1, p.2))
          else if e = 'b' then (parseStrBody fuel rest2).map (fun p => (Char.ofNat 8 :: p.1, p.2))
          else if e = 'f' then (parseStrBody fuel rest2).map (fun p => (Char.ofNat 12 :: p.1, p.2))
          else if e = 'u' then
            match rest2 with
            | h1 :: h2 :: h3 :: h4 :: rest3 =>
              match hexVal h1, hexVal h2, hexVal h3, hexVal h4 with
              | some a, some b, some c2, some d =>
                (parseStrBody fuel rest3).map
                  (fun p => (Char.ofNat (4096 * a + 256 * b + 16 * c2 + d) :: p.1, p.2))
              | _, _, _, _ => none
            | _ => none
          else none
      else (parseStrBody fuel rest).map (fun p => (c :: p.1, p.2))
  termination_by structural fuel _ => fuel

/-- Parse a nonempty run of decimal digits as a natural number. -/
def parseNatNum (input : List Char) : Option (Nat × List Char) :=
  let ds := input.takeWhile isDig
  if ds = [] then none
  else some (ds.foldl (fun a c => 10 * a + digVal c) 0, input.dropWhile isDig)

mutual
/-- Fuel-indexed parser for a JSON value, inverse to `serVal` on its
image (a model of `json.loads` restricted to the canonical renderings
produced by `json.dumps`). -/
def parseVal : Nat → List Char → Option (JVal × List Char)
  | 0, _ => none
  | fuel + 1, input =>
    match input with
    | [] => none
    | c :: rest =>
      if c = '"' then
        (parseStrBody (rest.length + 1) rest).map (fun p => (.jstr (String.mk p.1), p.2))
      else if c = '[' then
        match rest with
        | [] => none
        | c2 :: rest2 =>
          if c2 = ']' then some (.jarr [], rest2)
          else (parseElems fuel (c2 :: rest2)).map (fun p => (.jarr p.1, p.2))
      else if c = '{' then
        match rest with
        | [] => none
        | c2 :: rest2 =>
          if c2 = '}' then some (.jobj [], rest2)
          else (parseMembers fuel (c2 :: rest2)).map (fun p => (.jobj p.1, p.2))
      else if c = 'n' then
        match rest with
        | 'u' :: 'l' :: 'l' :: rest2 => some (.jnull, rest2)
        | _ => none
      else if c = 't' then
        match rest with
        | 'r' :: 'u' :: 'e' :: rest2 => some (.jbool true, rest2)
        | _ => none
      else if c = 'f' then
        match rest with
        | 'a' :: 'l' :: 's' :: 'e' :: rest2 => some (.jbool false, rest2)
        | _ => none
      else if c = '-' then
        (parseNatNum rest).map (fun p => (.jnum (-(p.1 : Int)), p.2))
      else if isDig c then
        (parseNatNum (c :: rest)).map (fun p => (.jnum ((p.1 : Nat) : Int), p.2))
      else none
  termination_by structural fuel _ => fuel

/-- Parse the elements of a nonempty JSON array after the opening
bracket, up to and including the closing bracket. -/
def parseElems : Nat → List Char → Option (List JVal × List Char)
  | 0, _ => none
  | fuel + 1, input =>
    match parseVal fuel input with
    | none => none
    | some (v, r) =>
      match r with
      | ']' :: r2 => some ([v], r2)
      | ',' :: ' ' :: r2 => (parseElems fuel r2).map (fun p => (v :: p.1, p.2))
      | _ => none
  termination_by structural fuel _ => fuel

/-- Parse the members of a nonempty JSON object after the opening
brace, up to and including the closing brace. -/
def parseMembers : Nat → List Char → Option (List (String × JVal) × List Char)
  | 0, _ => none
  | fuel + 1, input =>
    match input with
    | '"' :: r0 =>
      match parseStrBody (r0.length + 1) r0 with
      | none => none
      | some (k, r1) =>
        match r1 with
        | ':' :: ' ' :: r2 =>
          match parseVal fuel r2 with
          | none => none
          | some (v, r3) =>
            match r3 with
            | '}' :: r4 => some ([(String.mk k, v)], r4)
            | ',' :: ' ' :: r5 =>
              (parseMembers fuel r5).map (fun p => ((String.mk k, v) :: p.1, p.2))
            | _ => none
        | _ => none
    | _ => none
  termination_by structural fuel _ => fuel
end

/-- Model of Python's `json.dumps` on the JSON data model. -/
def pyJsonDumps (v : JVal) : String := String.mk (serVal v)

/-- Model of Python's `json.loads`, restricted to the canonical
grammar produced by `json.dumps`; `none` models a raised exception. -/
def pyJsonLoads (s : String) : Option JVal :=
  match parseVal (s.data.length + 1) s.data with
  | some (v, []) => some v
  | _ => none

/-! ## Digit and number round-trip lemmas -/
/-- The input after a serialized number must not begin with a digit
(in the canonical grammar it is empty or begins with a separator). -/
def noDigitHead : List Char → Prop
  | [] => True
  | c :: _ => isDig c = false

/-! ## Value round-trip: the parser inverts the serializer -/
mutual
/-- Structural size of a JSON value, used as parser fuel accounting. -/
def sizeJ : JVal → Nat
  | .jnum _ => 1
  | .jstr _ => 1
  | .jbool _ => 1
  | .jnull => 1
  | .jarr xs => 1 + sizeL xs
  | .jobj ms => 1 + sizeM ms

/-- Structural size of a list of JSON values. -/
def sizeL : List JVal → Nat
  | [] => 0
  | x :: xs => 1 + sizeJ x + sizeL xs

/-- Structural size of a list of JSON object members. -/
def sizeM : List (String × JVal) → Nat
  | [] => 0
  | (_, v) :: ms => 1 + sizeJ v + sizeM ms
end

/-! ## Search-space codec: `encode_values` and `decode_values`

Embedding of `RayTuneExecutor.encode_values` / `decode_values`
(`execution.py` lines 199-220) together with the module-level `identity`
function (line 82).  Python dicts are modelled as insertion-ordered
association lists; a decode function may fail (model of a raised
exception), hence returns `Option`. -/
/-- Association-list model of a Python dict with `JVal` values. -/
abbrev PyDict := List (String × JVal)

/-- Association-list model of the decode context: parameter name to
unary decode function. -/
abbrev DecodeCtx := List (String × (JVal → Option JVal))

/-- Python dict lookup (`d[k]` / `k in d`). -/
def dictGet (d : PyDict) (k : String) : Option JVal :=
  match d with
  | [] => none
  | (k2, v) :: rest => if k2 = k then some v else dictGet rest k

/-- Python dict assignment `d[k] = v` (replaces in place, else appends). -/
def dictSet (d : PyDict) (k : String) (v : JVal) : PyDict :=
  match d with
  | [] => [(k, v)]
  | (k2, w) :: rest => if k2 = k then (k2, v) :: rest else (k2, w) :: dictSet rest k v

/-- Context lookup (`ctx.get(key)` without default). -/
def ctxGet (ctx : DecodeCtx) (k : String) : Option (JVal → Option JVal) :=
  match ctx with
  | [] => none
  | (k2, f) :: rest => if k2 = k then some f else ctxGet rest k

/-- Context assignment `ctx[param] = f`. -/
def ctxSet (ctx : DecodeCtx) (k : String) (f : JVal → Option JVal) : DecodeCtx :=
  match ctx with
  | [] => [(k, f)]
  | (k2, g) :: rest => if k2 = k then (k2, f) :: rest else (k2, g) :: ctxSet rest k f

/-- Source `identity(x)` (execution.py line 82), the default decode
function; it never fails. -/
def identity (x : JVal) : Option JVal := some x

/-- The decode function registered by `encode_values`: `json.loads`,
which requires a string argument. -/
def pyJsonLoadsFn (v : JVal) : Option JVal :=
  match v with
  | .jstr s => pyJsonLoads s
  | _ => none

/-- Python test `isinstance(x, (int, float))` on a modelled value;
Python `bool` is a subclass of `int` so booleans count as numeric. -/
def isNumericPy : JVal → Bool
  | .jnum _ => true
  | .jbool _ => true
  | _ => false

/-- One iteration of the `for key in ["values", "categories"]` loop in
`encode_values`: if `key` is present and its first entry is not numeric,
JSON-encode every entry and register `json.loads` for the parameter.
`values[key][0]` requires a nonempty list value; other shapes raise,
modelled as `none`. -/
def encodeValuesKey (param key : String) (st : PyDict × DecodeCtx) :
    Option (PyDict × DecodeCtx) :=
  match dictGet st.1 key with
  | none => some st
  | some (.jarr (v0 :: vs)) =>
    if isNumericPy v0 then some st
    else some (dictSet st.1 key (.jarr ((v0 :: vs).map (fun v => .jstr (pyJsonDumps v)))),
               ctxSet st.2 param pyJsonLoadsFn)
  | some _ => none

/-- Embedding of `RayTuneExecutor.encode_values` (execution.py 199-212):
JSON-encodes the "values" / "categories" lists whose first entry is not
numeric, recording `json.loads` under the parameter name in the context. -/
def encode_values (param : String) (values : PyDict) (ctx : DecodeCtx) :
    Option (PyDict × DecodeCtx) := do
  let st1 ← encodeValuesKey param "values" (values, ctx)
  encodeValuesKey param "categories" st1

/-- Embedding of `RayTuneExecutor.decode_values` (execution.py 214-220):
applies `ctx.get(key, identity)` to every value of the sampled config. -/
def decode_values (config : PyDict) (ctx : DecodeCtx) : Option PyDict :=
  match config with
  | [] => some []
  | (k, v) :: rest =>
    match ((ctxGet ctx k).getD identity) v with
    | none => none
    | some w =>
      match decode_values rest ctx with
      | none => none
      | some rest2 => some ((k, w) :: rest2)

/-! ## Metric extraction

Embedding of `_has_metric`, `get_metric_score`,
`get_metric_score_from_train_stats` (execution.py 222-238, 254-262,
279-293).  Metric scalars (Python floats used only through comparisons)
are modelled as rationals.  The executor's configured feature/metric
names (`self.output_feature`, `self.metric`, `self.split` set in
`__init__`) are carried in `ExecutorCfg`. -/
/-- Ludwig constants (ludwig/constants.py, which is not under `src/`):
the split names and the goal string used by the executor. -/
def VALIDATION : String := "validation"

/-- Ludwig constant `TRAINING`. -/
def TRAINING : String := "training"

/-- Ludwig constant `TEST`. -/
def TEST : String := "test"

/-- Ludwig constant `MAXIMIZE`. -/
def MAXIMIZE : String := "maximize"

/-- Association-list lookup, the model of Python dict lookup for the
statistics dictionaries. -/
def alookup {α : Type} : List (String × α) → String → Option α
  | [], _ => none
  | (k2, v) :: rest, k => if k2 = k then some v else alookup rest k

/-- Per-checkpoint metric values for one metric. -/
abbrev MetricList := List ℚ

/-- Feature name to metric name to values. -/
abbrev FeatureStats := List (String × MetricList)

/-- Split contents: feature name to its metrics. -/
abbrev SplitStats := List (String × FeatureStats)

/-- Training statistics: split name to its contents. -/
abbrev TrainStats := List (String × SplitStats)

/-- The executor attributes consumed by the metric extractor
(`self.output_feature`, `self.metric`, `self.split`). -/
structure ExecutorCfg where
  output_feature : String
  metric : String
  split : String

/-- Direction of a metric's best function.  Modelled from the spec:
`get_best_function(metric)` (ludwig.modules.metric_modules, not under
`src/`) returns Python's `max` for metrics where higher is better and
`min` where lower is better; the authoritative per-metric mapping is
external configuration, modelled as a `Direction` argument threaded to
the score functions. -/
inductive Direction where
  | maximize
  | minimize

/-- Embedding of `RayTuneExecutor._has_metric` (execution.py 222-238)
for a non-`None` split, the only case exercised by `get_metric_score`:
the stats are non-falsy, the split key exists, the feature key exists
under it, the metric key exists under the feature, and the value list is
non-empty. -/
def _has_metric (cfg : ExecutorCfg) (stats : TrainStats) (split : String) : Bool :=
  if stats.isEmpty then false
  else
    match alookup stats split with
    | none => false
    | some splitStats =>
      match alookup splitStats cfg.output_feature with
      | none => false
      | some featStats =>
        match alookup featStats cfg.metric with
        | none => false
        | some ms => !ms.isEmpty

/-- Python's `enumerate` over a value list. -/
def pyEnumerate : Nat → List ℚ → List (Nat × ℚ)
  | _, [] => []
  | i, x :: xs => (i, x) :: pyEnumerate (i + 1) xs

/-- Python's `max` (resp. `min`) over a sequence of (index, value) pairs
with `key=lambda pair: pair[1]`: the first pair achieving the extremal
value; `none` models the exception raised on an empty sequence. -/
def pyBestBy (dir : Direction) (l : List (Nat × ℚ)) : Option (Nat × ℚ) :=
  match l with
  | [] => none
  | x :: xs =>
    some (xs.foldl (fun acc y =>
      match dir with
      | .maximize => if acc.2 < y.2 then y else acc
      | .minimize => if y.2 < acc.2 then y else acc) x)

/-- Embedding of `RayTuneExecutor.get_metric_score_from_train_stats`
(execution.py 279-293): `select_split or VALIDATION` (Python falsiness:
`None` and the empty string default to the validation split), two dict
indexings (a missing key raises, modelled as `none`), then the best
function applied to the enumerated metric list, returning the value
component. -/
def get_metric_score_from_train_stats (cfg : ExecutorCfg) (dir : Direction)
    (train_stats : TrainStats) (select_split : Option String) : Option ℚ :=
  let split := match select_split with
               | none => VALIDATION
               | some s => if s = "" then VALIDATION else s
  match alookup train_stats split with
  | none => none
  | some splitStats =>
    match alookup splitStats cfg.output_feature with
    | none => none
    | some featStats =>
      match alookup featStats cfg.metric with
      | none => none
      | some ms =>
        match pyBestBy dir (pyEnumerate 0 ms) with
        | none => none
        | some p => some p.2

/-- Embedding of `RayTuneExecutor.get_metric_score` (execution.py
254-262): prefer the validation split, fall back to the training split,
otherwise raise a `RuntimeError` (modelled as `none`; the theorems show
the two successful branches always produce a value, so `none` occurs
exactly in the error case). -/
def get_metric_score (cfg : ExecutorCfg) (dir : Direction) (train_stats : TrainStats) :
    Option ℚ :=
  if _has_metric cfg train_stats VALIDATION then
    get_metric_score_from_train_stats cfg dir train_stats (some VALIDATION)
  else if _has_metric cfg train_stats TRAINING then
    get_metric_score_from_train_stats cfg dir train_stats (some TRAINING)
  else
    none

/-! ## Eval-stats metric extraction

Embedding of `get_metric_score_from_eval_stats` and `_has_eval_metric`
(execution.py 264-277, 240-252).  Evaluation statistics come from JSON,
so values distinguish floats from ints: the source tests
`isinstance(stats, dict)` while walking and `isinstance(stats, float)`
at the end, which rejects non-float terminals (including ints). -/
/-- Python values appearing in evaluation statistics. -/
inductive EVal where
  | efloat (q : ℚ)
  | eint (n : Int)
  | estr (s : String)
  | ebool (b : Bool)
  | elist (xs : List EVal)
  | edict (kvs : List (String × EVal))

/-- Evaluation statistics: feature name to nested statistics value. -/
abbrev EvalStats := List (String × EVal)

/-- Python numeric test on an eval-stats value (int or float). -/
def isNumericE : EVal → Bool
  | .efloat _ => true
  | .eint _ => true
  | _ => false

/-- Model of Python's `str.split(".")` (never returns an empty list). -/
def splitDotAux : List Char → List Char → List String
  | [], acc => [String.mk acc.reverse]
  | c :: rest, acc =>
    if c = '.' then String.mk acc.reverse :: splitDotAux rest []
    else splitDotAux rest (c :: acc)

/-- Split a metric name on dots, as in `self.metric.split(".")`. -/
def splitDot (s : String) : List String := splitDotAux s.data []

/-- The walk of `for metric_part in self.metric.split(".")` shared by
`get_metric_score_from_eval_stats` and `_has_eval_metric`: descend one
mapping level per path segment; `none` models the raised/`False` case
(intermediate value not a dict, or segment absent). -/
def walkMetricPath : List String → EVal → Option EVal
  | [], stats => some stats
  | part :: parts, stats =>
    match stats with
    | .edict kvs =>
      match alookup kvs part with
      | none => none
      | some v => walkMetricPath parts v
    | _ => none

/-- Embedding of `RayTuneExecutor.get_metric_score_from_eval_stats`
(execution.py 264-277): index the output feature (a missing key raises
`KeyError`), walk the dot-separated metric path (raising `ValueError` on
a missing segment or non-mapping intermediate), and raise `ValueError`
unless the terminal value is a float. -/
def get_metric_score_from_eval_stats (cfg : ExecutorCfg) (eval_stats : EvalStats) :
    Except String ℚ :=
  match alookup eval_stats cfg.output_feature with
  | none => .error "KeyError"
  | some stats0 =>
    match walkMetricPath (splitDot cfg.metric) stats0 with
    | none => .error "ValueError: statistics do not contain the metric"
    | some (.efloat q) => .ok q
    | some _ => .error "ValueError: the metric is not a numerical value"

/-- Embedding of `RayTuneExecutor._has_eval_metric` (execution.py
240-252): `False` for `None` statistics, a missing feature key, a
failing path walk, or a non-float terminal. -/
def _has_eval_metric (cfg : ExecutorCfg) (stats : Option EvalStats) : Bool :=
  match stats with
  | none => false
  | some st =>
    match alookup st cfg.output_feature with
    | none => false
    | some v =>
      match walkMetricPath (splitDot cfg.metric) v with
      | some (.efloat _) => true
      | _ => false

/-! ## Trial result ordering (`execute`, result aggregation)

Embedding of `ordered_trials = analysis.results_df.sort_values(
"metric_score", ascending=self.goal != MAXIMIZE)` (execution.py 848-849).
`sort_values` is called without a `kind` argument, so it runs pandas
`nargsort` with the default `kind='quicksort'`: the ascending `argsort`
of the column is computed first and, when `ascending=False`, that
indexer is reversed wholesale (`indexer = indexer[::-1]`), which also
reverses the relative order of tied rows.  numpy's quicksort is an
introsort that finishes runs shorter than 16 elements with a plain
insertion-sort pass, so on frames below that threshold the ascending
argsort coincides with the stable order; the ascending leg is modelled
by that insertion sort. -/
/-- One row of `analysis.results_df` as consumed by the ordering step. -/
structure TrialRow where
  trial_id : Nat
  metric_score : ℚ
deriving DecidableEq

/-- Comparison on the "metric_score" column, direction given by the
`ascending` flag. -/
def rowLeB (ascending : Bool) (a b : TrialRow) : Bool :=
  if ascending then decide (a.metric_score ≤ b.metric_score)
  else decide (b.metric_score ≤ a.metric_score)

/-- The ascending `argsort` over the "metric_score" column as numpy's
`kind='quicksort'` produces it on frames below the introsort partition
threshold: a single insertion-sort pass, stable in that regime. -/
def nargsortAsc (rows : List TrialRow) : List TrialRow :=
  List.insertionSort (fun a b => rowLeB true a b = true) rows

/-- Model of `results_df.sort_values("metric_score", ascending=...)`
(pandas `nargsort`, default `kind='quicksort'`): the ascending argsort,
reversed wholesale when `ascending=False` — so a descending sort puts
tied rows in reversed pre-sort order rather than preserving it. -/
def sortValuesByScore (ascending : Bool) (rows : List TrialRow) : List TrialRow :=
  if ascending then nargsortAsc rows else (nargsortAsc rows).reverse

/-- The ordering performed by `execute`: ascending iff the goal is not
`MAXIMIZE`. -/
def orderedTrialRows (goal : String) (rows : List TrialRow) : List TrialRow :=
  sortValuesByScore (goal != MAXIMIZE) rows

/-! ## Evaluation backfill in `execute`

Embedding of the nan-catch and backfill loops of `execute`
(execution.py 851-889) together with the outcome of
`_evaluate_best_model` (381-429).  A results-frame cell is the
JSON-encoded string reported by `tune.report`, a pandas float (NaN for a
trial that never reported), or the empty dict substituted by the
nan-catch step.  `_get_best_model_path` and `_evaluate_best_model`
interact with the filesystem and the trained model; their outcomes enter
as function parameters: the resolved best checkpoint path per trial
directory, and the evaluation result (`none` models the caught
`NotImplementedError`, which leaves the record unchanged). -/
/-- One cell of `analysis.results_df` for the string-valued columns. -/
inductive Cell where
  | cstr (s : String)
  | cfloat
  | cemptyDict
deriving DecidableEq

/-- A trial record of the aggregation loop. -/
structure TrialRecord where
  parameters : Cell
  training_stats : Cell
  eval_stats : Cell
  trial_dir : String
deriving DecidableEq

/-- The empty-report JSON text (the two-character string of an opening
and a closing curly brace) reported by intermediate `tune.report` calls
and compared against by the backfill condition. -/
def emptyJson : String := "\x7b\x7d"

/-- The nan-catch step (execution.py 851-857): float cells become the
empty dict. -/
def squashNan : Cell → Cell
  | .cfloat => .cemptyDict
  | c => c

/-- The nan-catch step applied to the three JSON-valued columns. -/
def squashTrial (t : TrialRecord) : TrialRecord :=
  ⟨squashNan t.parameters, squashNan t.training_stats, squashNan t.eval_stats, t.trial_dir⟩

/-- The backfill selection condition (execution.py 865):
`trial["eval_stats"] == "{}" and trial["training_stats"] != "{}"`. -/
def backfillSelected (t : TrialRecord) : Prop :=
  t.eval_stats = Cell.cstr emptyJson ∧ ¬ t.training_stats = Cell.cstr emptyJson

instance (t : TrialRecord) : Decidable (backfillSelected t) := by
  unfold backfillSelected
  infer_instance

/-- Embedding of the backfill body for one trial record (execution.py
864-889): on a selected record, evaluation runs only when the validation
set is supplied and non-empty and a best model path resolves; the
returned flag records whether `_evaluate_best_model` was invoked.
`evalOutcome` is the evaluation result: `some es` sets the record's
eval stats, `none` (a `NotImplementedError`, caught and logged) leaves
them untouched. -/
def backfillTrial (validationSize : Option Nat)
    (bestModelPath : String → Option String)
    (evalOutcome : String → Option String)
    (t : TrialRecord) : TrialRecord × Bool :=
  if backfillSelected t then
    match validationSize with
    | some n =>
      if 0 < n then
        match bestModelPath t.trial_dir with
        | some _ =>
          match evalOutcome t.trial_dir with
          | some es => (⟨t.parameters, t.training_stats, Cell.cstr es, t.trial_dir⟩, true)
          | none => (t, true)
        | none => (t, false)
      else (t, false)
    | none => (t, false)
  else (t, false)

/-! ## Checkpoint staging (`checkpoint`, execution.py 112-127)

The tune checkpoint directory is modelled as an association list from
entry name to the file names it holds.  The staged names live inside one
checkpoint slot, so `checkpoint_model` is the entry `"model"` and the
temporary copy is `"model.<copy-id>.tmp"` (the uuid enters as a
parameter).  A failure oracle covers the `os.rename` step, whose
exception the source catches. -/
/-- Contents of the tune checkpoint directory: entry name to files. -/
abbrev CkptDirState := List (String × List String)

/-- Python `f.startswith(".")`. -/
def startsWithDot (f : String) : Bool :=
  match f.data with
  | [] => false
  | c :: _ => c = '.'

/-- Embedding of the local `ignore_dot_files` helper (returns the names
`shutil.copytree` must skip). -/
def ignore_dot_files (files : List String) : List String :=
  files.filter (fun f => startsWithDot f)

/-- Remove a directory entry (`shutil.rmtree`). -/
def fsRemove (fs : CkptDirState) (name : String) : CkptDirState :=
  fs.filter (fun e => !(e.1 == name))

/-- Rename a directory entry (`os.rename`), assuming the source exists. -/
def fsRename (fs : CkptDirState) (old new2 : String) : CkptDirState :=
  match alookup fs old with
  | none => fs
  | some files => (new2, files) :: fsRemove fs old

/-- Result of one `checkpoint` call: the sequence of observable
directory states (before the copy, after the copy, final), the final
state, and whether an exception propagated. -/
structure CheckpointOutcome where
  states : List CkptDirState
  final : CkptDirState
  raised : Bool

/-- Embedding of `checkpoint(progress_tracker, save_path)`
(execution.py 112-127): if the `"model"` entry is absent, copy the save
path's files (skipping the names returned by `ignore_dot_files`) to the
temporary entry `"model.<copy-id>.tmp"`, then rename it to `"model"`;
when the rename fails, the temporary copy is removed and the exception
is swallowed by the `except` clause. -/
def checkpoint_stage (saveFiles : List String) (copyId : String) (renameFails : Bool)
    (fs : CkptDirState) : CheckpointOutcome :=
  if (alookup fs "model").isSome then ⟨[fs], fs, false⟩
  else
    let tmp_dst := "model." ++ copyId ++ ".tmp"
    let copied := saveFiles.filter (fun f => !((ignore_dot_files saveFiles).contains f))
    let fs1 := (tmp_dst, copied) :: fs
    if renameFails then
      let fs2 := fsRemove fs1 tmp_dst
      ⟨[fs, fs1, fs2], fs2, false⟩
    else
      let fs2 := fsRename fs1 tmp_dst "model"
      ⟨[fs, fs1, fs2], fs2, false⟩

/-! ## Resume move with rollback
(`RayTuneReportCallback.on_trainer_train_setup`, execution.py 517-548)

The filesystem is modelled as an association list from path to directory
content (file name to bytes), restricted to the paths the block touches.
`safe_move_file` lives in `ludwig/utils/fs_utils.py`, which is not under
`src/`; modelled from the spec as an operation that either moves the
checkpoint content into the destination or fails partway, leaving
arbitrary partial content (or nothing) at the destination and raising. -/
/-- Directory content: file name to bytes. -/
abbrev DirContent := List (String × String)

/-- Filesystem: path to directory content. -/
abbrev PathFS := List (String × DirContent)

/-- Association-list assignment (used as filesystem update). -/
def assocSet {α : Type} : List (String × α) → String → α → List (String × α)
  | [], k, v => [(k, v)]
  | (k2, w) :: rest, k, v =>
    if k2 = k then (k2, v) :: rest else (k2, w) :: assocSet rest k v

/-- Remove a path (`shutil.rmtree`). -/
def assocRemove {α : Type} (l : List (String × α)) (k : String) : List (String × α) :=
  l.filter (fun e => !(e.1 == k))

/-- Move a path (`os.rename`), assuming the target is fresh. -/
def assocRename {α : Type} (l : List (String × α)) (old new2 : String) :
    List (String × α) :=
  match alookup l old with
  | none => l
  | some v => (new2, v) :: assocRemove l old

/-- Outcome of `safe_move_file`.  Modelled from the spec: the move
either succeeds, or fails partway leaving arbitrary partial content (or
nothing) at the destination and raising an exception. -/
inductive MoveOutcome where
  | success
  | failure (leftover : Option DirContent)

/-- Embedding of the resume-checkpoint move block of
`on_trainer_train_setup` (execution.py 526-545): back up any existing
save path to `<save_path>.tmp`, attempt the move; on failure remove
whatever is at the save path, restore the backup, and re-raise (the
returned flag); on success remove the backup. -/
def resume_move (fs : PathFS) (savePath : String) (ckptContent : DirContent)
    (mv : MoveOutcome) : PathFS × Bool :=
  let tmp := savePath ++ ".tmp"
  let fs1 := if (alookup fs savePath).isSome then assocRename fs savePath tmp else fs
  match mv with
  | .success =>
    let fs2 := assocSet fs1 savePath ckptContent
    let fs3 := if (alookup fs2 tmp).isSome then assocRemove fs2 tmp else fs2
    (fs3, false)
  | .failure leftover =>
    let fs2 := match leftover with
               | some c => assocSet fs1 savePath c
               | none => fs1
    let fs3 := if (alookup fs2 savePath).isSome then assocRemove fs2 savePath else fs2
    let fs4 := if (alookup fs3 tmp).isSome then assocRename fs3 tmp savePath else fs3
    (fs4, true)

/-! ## Trial hyperparameter file written by `_run_experiment`

Embedding of the configuration pipeline of `_run_experiment`
(execution.py 443-463): decode the sampled config, strip the injected
"mlflow" key, merge the sampled values into a deep copy of the base
experiment configuration (`substitute_parameters`, ludwig/hyperopt/
utils.py, not under `src/`; its merge enters as a function parameter —
the deep copy means the merge cannot mutate the base config), and write
`trial_hyperparameters.json`.  The source dumps `hyperopt_dict["config"]`
(the base experiment configuration) into that file, although its own
comment says it writes "the unmerged config with sampled
hyperparameters" and the spec says the sampled record is written. -/
/-- The outcome of the preparation steps of `_run_experiment`. -/
structure PreparedTrial where
  sampled : PyDict
  writtenHyperparameters : JVal
  mergedConfig : JVal

/-- Embedding of the decode / mlflow-strip / merge / file-write slice of
`_run_experiment` (execution.py 443-463). -/
def run_experiment_prep (substitute : JVal → PyDict → JVal)
    (decodeCtx : DecodeCtx) (rawConfig : PyDict) (baseConfig : JVal) :
    Option PreparedTrial :=
  match decode_values rawConfig decodeCtx with
  | none => none
  | some cfg =>
    let cfg2 := if (dictGet cfg "mlflow").isSome then assocRemove cfg "mlflow" else cfg
    some ⟨cfg2, baseConfig, substitute baseConfig cfg2⟩

/-! ## Attribute environment of `sort_hyperopt_results`

`sort_hyperopt_results` (execution.py 295-298) reads
`self.hyperopt_sampler.goal`.  The attributes ever assigned on a
`RayTuneExecutor` are those set by `__init__` (execution.py 148-171) and
the reassignments in `execute` (789-801), all listed below; reading any
other attribute raises `AttributeError`. -/
/-- Attribute names assigned by `RayTuneExecutor.__init__`
(execution.py 148-171). -/
def rayTuneExecutorInitAttrs : List String :=
  ["output_feature", "metric", "split", "search_space", "decode_ctx",
   "num_samples", "goal", "search_algorithm", "scheduler", "trial_id",
   "cpu_resources_per_trial", "gpu_resources_per_trial",
   "kubernetes_namespace", "time_budget_s", "max_concurrent_trials",
   "sync_config", "sync_client", "head_node_ip"]

/-- Attribute names assigned in `RayTuneExecutor.execute`
(execution.py 789-801); both already exist after `__init__`. -/
def rayTuneExecutorExecuteAttrs : List String := ["sync_client", "sync_config"]

/-- Python's built-in `sorted` with `key=lambda r: r.metric_score` and a
`reverse` flag, as used at execution.py 298 (Timsort: stable, and
`reverse=True` also keeps the original relative order of tied rows). -/
def pySortedByScore (reverse : Bool) (rows : List TrialRow) : List TrialRow :=
  List.insertionSort (fun a b => rowLeB (!reverse) a b = true) rows

/-- Embedding of `RayTuneExecutor.sort_hyperopt_results` (execution.py
295-298) over an attribute environment: the `reverse` argument reads
`self.hyperopt_sampler.goal`, so the call raises `AttributeError`
whenever `hyperopt_sampler` is not among the instance's attributes
(before any element is compared). -/
def sort_hyperopt_results (attrs : List String) (samplerGoal : String)
    (results : List TrialRow) : Except String (List TrialRow) :=
  if attrs.contains "hyperopt_sampler" then
    .ok (pySortedByScore (samplerGoal == MAXIMIZE) results)
  else
    .error "AttributeError"

/-! ### Theorems -/

theorem isDig_digitChar {d : Nat} (h : d < 10) : isDig (digitChar d) = true := by
  interval_cases d <;> decide

theorem digVal_digitChar {d : Nat} (h : d < 10) : digVal (digitChar d) = d := by
  interval_cases d <;> decide

theorem natDigitsAux_zero (fuel : Nat) : natDigitsAux fuel 0 = [] := by
  cases fuel <;> simp [natDigitsAux]

theorem natDigitsAux_all_dig :
    ∀ fuel n c, c ∈ natDigitsAux fuel n → isDig c = true := by
  intro fuel
  induction fuel with
  | zero => intro n c hc; simp [natDigitsAux] at hc
  | succ fuel ih =>
    intro n c hc
    by_cases hn : n = 0
    · simp [natDigitsAux, hn] at hc
    · simp only [natDigitsAux, if_neg hn, List.mem_append, List.mem_singleton] at hc
      rcases hc with hc | hc
      · exact ih _ _ hc
      · subst hc; exact isDig_digitChar (Nat.mod_lt _ (by omega))

theorem natDigitsAux_ne_nil {fuel n : Nat} (hn : n ≠ 0) (hf : n ≤ fuel) :
    natDigitsAux fuel n ≠ [] := by
  cases fuel with
  | zero => omega
  | succ fuel => simp [natDigitsAux, hn]

theorem natDigitsAux_foldl :
    ∀ fuel n a, n ≤ fuel → n ≠ 0 →
      ∃ p : Nat,
        (natDigitsAux fuel n).foldl (fun acc c => 10 * acc + digVal c) a = a * p + n := by
  intro fuel
  induction fuel with
  | zero => intro n a h1 h2; omega
  | succ fuel ih =>
    intro n a h1 h2
    simp only [natDigitsAux, if_neg h2]
    rw [List.foldl_append]
    simp only [List.foldl_cons, List.foldl_nil]
    rw [digVal_digitChar (Nat.mod_lt _ (by omega))]
    by_cases h10 : n / 10 = 0
    · rw [h10, natDigitsAux_zero]
      simp only [List.foldl_nil]
      exact ⟨10, by omega⟩
    · obtain ⟨p, hp⟩ := ih (n / 10) a (by omega) h10
      rw [hp]
      refine ⟨10 * p, ?_⟩
      have hmod := Nat.div_add_mod n 10
      have hmul : a * (10 * p) = 10 * (a * p) := by ring
      omega

theorem takeWhile_dig_append (l rest : List Char)
    (hl : ∀ c ∈ l, isDig c = true) (hr : noDigitHead rest) :
    (l ++ rest).takeWhile isDig = l ∧ (l ++ rest).dropWhile isDig = rest := by
  induction l with
  | nil =>
    simp only [List.nil_append]
    cases rest with
    | nil => simp
    | cons c cs =>
      simp only [noDigitHead] at hr
      simp [List.takeWhile_cons, List.dropWhile_cons, hr]
  | cons c cs ih =>
    have hc : isDig c = true := hl c (by simp)
    have ih2 := ih (fun x hx => hl x (by simp [hx]))
    simp [List.takeWhile_cons, List.dropWhile_cons, hc, ih2.1, ih2.2]

theorem parseNatNum_serNat (n : Nat) (rest : List Char) (hr : noDigitHead rest) :
    parseNatNum (serNat n ++ rest) = some (n, rest) := by
  by_cases hn : n = 0
  · subst hn
    have h := takeWhile_dig_append ['0'] rest
      (by intro c hc; simp at hc; subst hc; decide) hr
    simp only [List.cons_append, List.nil_append] at h
    have hser : serNat 0 ++ rest = '0' :: rest := rfl
    rw [hser]
    unfold parseNatNum
    rw [h.1, h.2]
    simp
    decide
  · have hdig : ∀ c ∈ natDigitsAux n n, isDig c = true :=
      fun c hc => natDigitsAux_all_dig n n c hc
    have hne : natDigitsAux n n ≠ [] := natDigitsAux_ne_nil hn (Nat.le_refl n)
    have h := takeWhile_dig_append (natDigitsAux n n) rest hdig hr
    obtain ⟨p, hp⟩ := natDigitsAux_foldl n n 0 (Nat.le_refl n) hn
    simp only [serNat, if_neg hn, parseNatNum, h.1, h.2, if_neg hne]
    rw [hp]
    simp

/-! ## String escaping round-trip -/
theorem hexVal_hexChar {d : Nat} (h : d < 16) : hexVal (hexChar d) = some d := by
  interval_cases d <;> decide

theorem escChar_length_pos (c : Char) : 0 < (escChar c).length := by
  unfold escChar
  repeat' split
  all_goals simp

theorem length_le_escapeChars : ∀ cs : List Char, cs.length ≤ (escapeChars cs).length := by
  intro cs
  induction cs with
  | nil => simp [escapeChars]
  | cons c cs ih =>
    have h := escChar_length_pos c
    simp only [escapeChars, List.length_append, List.length_cons]
    omega

theorem psb_quote (fuel : Nat) (rest : List Char) :
    parseStrBody (fuel + 1) ('"' :: rest) = some ([], rest) := rfl

theorem psb_esc_quote (fuel : Nat) (rest : List Char) :
    parseStrBody (fuel + 1) ('\\' :: '"' :: rest) =
      (parseStrBody fuel rest).map (fun p => ('"' :: p.1, p.2)) := rfl

theorem psb_esc_back (fuel : Nat) (rest : List Char) :
    parseStrBody (fuel + 1) ('\\' :: '\\' :: rest) =
      (parseStrBody fuel rest).map (fun p => ('\\' :: p.1, p.2)) := rfl

theorem psb_esc_n (fuel : Nat) (rest : List Char) :
    parseStrBody (fuel + 1) ('\\' :: 'n' :: rest) =
      (parseStrBody fuel rest).map (fun p => ('\n' :: p.1, p.2)) := rfl

theorem psb_esc_t (fuel : Nat) (rest : List Char) :
    parseStrBody (fuel + 1) ('\\' :: 't' :: rest) =
      (parseStrBody fuel rest).map (fun p => ('\t' :: p.1, p.2)) := rfl

theorem psb_esc_r (fuel : Nat) (rest : List Char) :
    parseStrBody (fuel + 1) ('\\' :: 'r' :: rest) =
      (parseStrBody fuel rest).map (fun p => ('\r' :: p.1, p.2)) := rfl

theorem psb_esc_b (fuel : Nat) (rest : List Char) :
    parseStrBody (fuel + 1) ('\\' :: 'b' :: rest) =
      (parseStrBody fuel rest).map (fun p => (Char.ofNat 8 :: p.1, p.2)) := rfl

theorem psb_esc_f (fuel : Nat) (rest : List Char) :
    parseStrBody (fuel + 1) ('\\' :: 'f' :: rest) =
      (parseStrBody fuel rest).map (fun p => (Char.ofNat 12 :: p.1, p.2)) := rfl

theorem psb_esc_u (fuel : Nat) (h1 h2 h3 h4 : Char) (a b c2 d : Nat) (rest : List Char)
    (ha : hexVal h1 = some a) (hb : hexVal h2 = some b)
    (hc : hexVal h3 = some c2) (hd : hexVal h4 = some d) :
    parseStrBody (fuel + 1) ('\\' :: 'u' :: h1 :: h2 :: h3 :: h4 :: rest) =
      (parseStrBody fuel rest).map
        (fun p => (Char.ofNat (4096 * a + 256 * b + 16 * c2 + d) :: p.1, p.2)) := by
  have step : parseStrBody (fuel + 1) ('\\' :: 'u' :: h1 :: h2 :: h3 :: h4 :: rest) =
      match hexVal h1, hexVal h2, hexVal h3, hexVal h4 with
      | some a, some b, some c2, some d =>
        (parseStrBody fuel rest).map
          (fun p => (Char.ofNat (4096 * a + 256 * b + 16 * c2 + d) :: p.1, p.2))
      | _, _, _, _ => none := rfl
  rw [step, ha, hb, hc, hd]

theorem psb_other (fuel : Nat) (c : Char) (rest : List Char)
    (hq : ¬ c = '"') (hb : ¬ c = '\\') :
    parseStrBody (fuel + 1) (c :: rest) =
      (parseStrBody fuel rest).map (fun p => (c :: p.1, p.2)) := by
  simp only [parseStrBody]
  rw [if_neg hq, if_neg hb]

theorem parseStrBody_escape :
    ∀ (cs : List Char) (fuel : Nat) (rest : List Char), cs.length < fuel →
      parseStrBody fuel (escapeChars cs ++ '"' :: rest) = some (cs, rest) := by
  intro cs
  induction cs with
  | nil =>
    intro fuel rest h
    match fuel, h with
    | fuel + 1, _ => exact psb_quote fuel rest
  | cons c cs ih =>
    intro fuel rest h
    match fuel, h with
    | f + 1, h =>
      have hf : cs.length < f := by simp only [List.length_cons] at h; omega
      have ihf := ih f rest hf
      by_cases h1 : c = '"'
      · subst h1
        show parseStrBody (f + 1) ('\\' :: '"' :: (escapeChars cs ++ '"' :: rest)) = _
        rw [psb_esc_quote, ihf]
        rfl
      · by_cases h2 : c = '\\'
        · subst h2
          show parseStrBody (f + 1) ('\\' :: '\\' :: (escapeChars cs ++ '"' :: rest)) = _
          rw [psb_esc_back, ihf]
          rfl
        · by_cases h3 : c = '\n'
          · subst h3
            show parseStrBody (f + 1) ('\\' :: 'n' :: (escapeChars cs ++ '"' :: rest)) = _
            rw [psb_esc_n, ihf]
            rfl
          · by_cases h4 : c = '\t'
            · subst h4
              show parseStrBody (f + 1) ('\\' :: 't' :: (escapeChars cs ++ '"' :: rest)) = _
              rw [psb_esc_t, ihf]
              rfl
            · by_cases h5 : c = '\r'
              · subst h5
                show parseStrBody (f + 1) ('\\' :: 'r' :: (escapeChars cs ++ '"' :: rest)) = _
                rw [psb_esc_r, ihf]
                rfl
              · by_cases h6 : c.toNat = 8
                · have hc : escChar c = ['\\', 'b'] := by
                    simp only [escChar, if_neg h1, if_neg h2, if_neg h3, if_neg h4,
                      if_neg h5, if_pos h6]
                  have hl : escapeChars (c :: cs) ++ '"' :: rest =
                      '\\' :: 'b' :: (escapeChars cs ++ '"' :: rest) := by
                    show (escChar c ++ escapeChars cs) ++ '"' :: rest = _
                    rw [hc]
                    rfl
                  rw [hl, psb_esc_b, ihf]
                  have hcn : Char.ofNat 8 = c := by rw [← h6]; exact Char.ofNat_toNat c
                  rw [hcn]
                  rfl
                · by_cases h7 : c.toNat = 12
                  · have hc : escChar c = ['\\', 'f'] := by
                      simp only [escChar, if_neg h1, if_neg h2, if_neg h3, if_neg h4,
                        if_neg h5, if_neg h6, if_pos h7]
                    have hl : escapeChars (c :: cs) ++ '"' :: rest =
                        '\\' :: 'f' :: (escapeChars cs ++ '"' :: rest) := by
                      show (escChar c ++ escapeChars cs) ++ '"' :: rest = _
                      rw [hc]
                      rfl
                    rw [hl, psb_esc_f, ihf]
                    have hcn : Char.ofNat 12 = c := by rw [← h7]; exact Char.ofNat_toNat c
                    rw [hcn]
                    rfl
                  · by_cases h8 : c.toNat < 32
                    · have hc : escChar c =
                          ['\\', 'u', '0', '0', hexChar (c.toNat / 16),
                            hexChar (c.toNat % 16)] := by
                        simp only [escChar, if_neg h1, if_neg h2, if_neg h3, if_neg h4,
                          if_neg h5, if_neg h6, if_neg h7, if_pos h8]
                      have hl : escapeChars (c :: cs) ++ '"' :: rest =
                          '\\' :: 'u' :: '0' :: '0' :: hexChar (c.toNat / 16) ::
                            hexChar (c.toNat % 16) :: (escapeChars cs ++ '"' :: rest) := by
                        show (escChar c ++ escapeChars cs) ++ '"' :: rest = _
                        rw [hc]
                        rfl
                      have hz : hexVal '0' = some 0 := by decide
                      have hdiv : hexVal (hexChar (c.toNat / 16)) = some (c.toNat / 16) :=
                        hexVal_hexChar (by omega)
                      have hmod : hexVal (hexChar (c.toNat % 16)) = some (c.toNat % 16) :=
                        hexVal_hexChar (by omega)
                      rw [hl, psb_esc_u f _ _ _ _ _ _ _ _ _ hz hz hdiv hmod, ihf]
                      have hval : 4096 * 0 + 256 * 0 + 16 * (c.toNat / 16) + c.toNat % 16 =
                          c.toNat := by omega
                      rw [hval, Char.ofNat_toNat]
                      rfl
                    · have hc : escChar c = [c] := by
                        simp only [escChar, if_neg h1, if_neg h2, if_neg h3, if_neg h4,
                          if_neg h5, if_neg h6, if_neg h7, if_neg h8]
                      have hl : escapeChars (c :: cs) ++ '"' :: rest =
                          c :: (escapeChars cs ++ '"' :: rest) := by
                        show (escChar c ++ escapeChars cs) ++ '"' :: rest = _
                        rw [hc]
                        rfl
                      rw [hl, psb_other f c _ h1 h2, ihf]
                      rfl

theorem isDig_facts {c : Char} (h : isDig c = true) :
    ¬ c = '"' ∧ ¬ c = '[' ∧ ¬ c = '{' ∧ ¬ c = 'n' ∧ ¬ c = 't' ∧ ¬ c = 'f' ∧
      ¬ c = '-' ∧ ¬ c = ']' := by
  refine ⟨?_, ?_, ?_, ?_, ?_, ?_, ?_, ?_⟩ <;>
    (intro he; subst he; exact absurd h (by decide))

theorem serNat_head (n : Nat) :
    ∃ c cs, serNat n = c :: cs ∧ isDig c = true := by
  by_cases hn : n = 0
  · exact ⟨'0', [], by simp [serNat, hn], by decide⟩
  · cases hser : natDigitsAux n n with
    | nil => exact absurd hser (natDigitsAux_ne_nil hn (Nat.le_refl n))
    | cons c cs =>
      refine ⟨c, cs, by simp [serNat, hn, hser], ?_⟩
      exact natDigitsAux_all_dig n n c (by rw [hser]; simp)

theorem serVal_head (v : JVal) : ∃ c cs, serVal v = c :: cs ∧ ¬ c = ']' := by
  cases v with
  | jnum i =>
    by_cases hi : i < 0
    · exact ⟨'-', serNat i.natAbs, by simp [serVal, serInt, hi], by decide⟩
    · obtain ⟨c, cs, hser, hdig⟩ := serNat_head i.toNat
      exact ⟨c, cs, by simp [serVal, serInt, hi, hser], (isDig_facts hdig).2.2.2.2.2.2.2⟩
  | jstr s => exact ⟨'"', escapeChars s.data ++ ['"'], rfl, by decide⟩
  | jbool b =>
    cases b with
    | false => exact ⟨'f', _, rfl, by decide⟩
    | true => exact ⟨'t', _, rfl, by decide⟩
  | jnull => exact ⟨'n', _, rfl, by decide⟩
  | jarr xs =>
    cases xs with
    | nil => exact ⟨'[', _, rfl, by decide⟩
    | cons x xs => exact ⟨'[', _, rfl, by decide⟩
  | jobj ms => match ms with
               | [] => exact ⟨'{', _, rfl, by decide⟩
               | (k, w) :: ms => exact ⟨'{', _, rfl, by decide⟩

theorem pv_str (fuel : Nat) (rest : List Char) :
    parseVal (fuel + 1) ('"' :: rest) =
      (parseStrBody (rest.length + 1) rest).map (fun p => (.jstr (String.mk p.1), p.2)) := rfl

theorem pv_null (fuel : Nat) (rest : List Char) :
    parseVal (fuel + 1) ('n' :: 'u' :: 'l' :: 'l' :: rest) = some (.jnull, rest) := rfl

theorem pv_true (fuel : Nat) (rest : List Char) :
    parseVal (fuel + 1) ('t' :: 'r' :: 'u' :: 'e' :: rest) = some (.jbool true, rest) := rfl

theorem pv_false (fuel : Nat) (rest : List Char) :
    parseVal (fuel + 1) ('f' :: 'a' :: 'l' :: 's' :: 'e' :: rest) =
      some (.jbool false, rest) := rfl

theorem pv_arr_nil (fuel : Nat) (rest : List Char) :
    parseVal (fuel + 1) ('[' :: ']' :: rest) = some (.jarr [], rest) := rfl

theorem pv_arr (fuel : Nat) (c2 : Char) (rest2 : List Char) (h : ¬ c2 = ']') :
    parseVal (fuel + 1) ('[' :: c2 :: rest2) =
      (parseElems fuel (c2 :: rest2)).map (fun p => (.jarr p.1, p.2)) := by
  have step : parseVal (fuel + 1) ('[' :: c2 :: rest2) =
      if c2 = ']' then some (.jarr [], rest2)
      else (parseElems fuel (c2 :: rest2)).map (fun p => (.jarr p.1, p.2)) := rfl
  rw [step, if_neg h]

theorem pv_obj_nil (fuel : Nat) (rest : List Char) :
    parseVal (fuel + 1) ('{' :: '}' :: rest) = some (.jobj [], rest) := rfl

theorem pv_obj (fuel : Nat) (c2 : Char) (rest2 : List Char) (h : ¬ c2 = '}') :
    parseVal (fuel + 1) ('{' :: c2 :: rest2) =
      (parseMembers fuel (c2 :: rest2)).map (fun p => (.jobj p.1, p.2)) := by
  have step : parseVal (fuel + 1) ('{' :: c2 :: rest2) =
      if c2 = '}' then some (.jobj [], rest2)
      else (parseMembers fuel (c2 :: rest2)).map (fun p => (.jobj p.1, p.2)) := rfl
  rw [step, if_neg h]

theorem pv_neg (fuel : Nat) (rest : List Char) :
    parseVal (fuel + 1) ('-' :: rest) =
      (parseNatNum rest).map (fun p => (.jnum (-(p.1 : Int)), p.2)) := rfl

theorem pv_digit (fuel : Nat) (c : Char) (rest : List Char) (hd : isDig c = true) :
    parseVal (fuel + 1) (c :: rest) =
      (parseNatNum (c :: rest)).map (fun p => (.jnum ((p.1 : Nat) : Int), p.2)) := by
  obtain ⟨f1, f2, f3, f4, f5, f6, f7, _⟩ := isDig_facts hd
  simp only [parseVal]
  rw [if_neg f1, if_neg f2, if_neg f3, if_neg f4, if_neg f5, if_neg f6, if_neg f7, if_pos hd]

theorem pe_step (fuel : Nat) (input : List Char) :
    parseElems (fuel + 1) input =
      match parseVal fuel input with
      | none => none
      | some (v, r) =>
        match r with
        | ']' :: r2 => some ([v], r2)
        | ',' :: ' ' :: r2 => (parseElems fuel r2).map (fun p => (v :: p.1, p.2))
        | _ => none := rfl

theorem pm_step (fuel : Nat) (r0 : List Char) :
    parseMembers (fuel + 1) ('"' :: r0) =
      match parseStrBody (r0.length + 1) r0 with
      | none => none
      | some (k, r1) =>
        match r1 with
        | ':' :: ' ' :: r2 =>
          match parseVal fuel r2 with
          | none => none
          | some (v, r3) =>
            match r3 with
            | '}' :: r4 => some ([(String.mk k, v)], r4)
            | ',' :: ' ' :: r5 =>
              (parseMembers fuel r5).map (fun p => ((String.mk k, v) :: p.1, p.2))
            | _ => none
        | _ => none := rfl

theorem sizeJ_pos (v : JVal) : 1 ≤ sizeJ v := by
  cases v <;> simp [sizeJ]

theorem noDigitHead_elems (xs : List JVal) (rest : List Char) :
    noDigitHead (serElemsTail xs ++ rest) := by
  cases xs with
  | nil => show isDig ']' = false; decide
  | cons y ys => show isDig ',' = false; decide

theorem noDigitHead_members (ms : List (String × JVal)) (rest : List Char) :
    noDigitHead (serMembersTail ms ++ rest) := by
  cases ms with
  | nil => show isDig '}' = false; decide
  | cons m ms =>
    obtain ⟨k, v⟩ := m
    show isDig ',' = false; decide

theorem parse_ser :
    ∀ fuel : Nat,
      (∀ (v : JVal) (rest : List Char), sizeJ v ≤ fuel → noDigitHead rest →
        parseVal fuel (serVal v ++ rest) = some (v, rest)) ∧
      (∀ (x : JVal) (xs : List JVal) (rest : List Char), sizeL (x :: xs) ≤ fuel →
        parseElems fuel (serVal x ++ serElemsTail xs ++ rest) = some (x :: xs, rest)) ∧
      (∀ (k : String) (v : JVal) (ms : List (String × JVal)) (rest : List Char),
        sizeM ((k, v) :: ms) ≤ fuel →
        parseMembers fuel (serStr k ++ ':' :: ' ' :: serVal v ++ serMembersTail ms ++ rest) =
          some ((k, v) :: ms, rest)) := by
  intro fuel
  induction fuel with
  | zero =>
    refine ⟨?_, ?_, ?_⟩
    · intro v rest hsz _
      have := sizeJ_pos v
      omega
    · intro x xs rest hsz
      simp only [sizeL] at hsz
      omega
    · intro k v ms rest hsz
      simp only [sizeM] at hsz
      omega
  | succ fuel ih =>
    obtain ⟨ihA, ihB, ihC⟩ := ih
    refine ⟨?_, ?_, ?_⟩
    · -- parseVal inverts serVal
      intro v rest hsz hnd
      cases v with
      | jnull =>
        show parseVal (fuel + 1) ('n' :: 'u' :: 'l' :: 'l' :: rest) = _
        exact pv_null fuel rest
      | jbool b =>
        cases b with
        | true =>
          show parseVal (fuel + 1) ('t' :: 'r' :: 'u' :: 'e' :: rest) = _
          exact pv_true fuel rest
        | false =>
          show parseVal (fuel + 1) ('f' :: 'a' :: 'l' :: 's' :: 'e' :: rest) = _
          exact pv_false fuel rest
      | jstr s =>
        show parseVal (fuel + 1) ('"' :: ((escapeChars s.data ++ ['"']) ++ rest)) = _
        rw [pv_str fuel]
        simp only [List.append_assoc, List.cons_append, List.nil_append]
        have hb : s.data.length < (escapeChars s.data ++ '"' :: rest).length + 1 := by
          have h := length_le_escapeChars s.data
          simp only [List.length_append, List.length_cons]
          omega
        rw [parseStrBody_escape s.data _ rest hb]
        rfl
      | jnum i =>
        by_cases hi : i < 0
        · have hser : serVal (.jnum i) = '-' :: serNat i.natAbs := by
            simp [serVal, serInt, hi]
          rw [hser]
          show parseVal (fuel + 1) ('-' :: (serNat i.natAbs ++ rest)) = _
          rw [pv_neg, parseNatNum_serNat i.natAbs rest hnd]
          simp only [Option.map_some']
          have hv : -((i.natAbs : Nat) : Int) = i := by omega
          rw [hv]
        · obtain ⟨c, cs, hser, hdig⟩ := serNat_head i.toNat
          have hser2 : serVal (.jnum i) = c :: cs := by
            simp [serVal, serInt, hi, hser]
          rw [hser2]
          show parseVal (fuel + 1) (c :: (cs ++ rest)) = _
          rw [pv_digit fuel c (cs ++ rest) hdig]
          have hback : c :: (cs ++ rest) = serNat i.toNat ++ rest := by
            rw [hser, List.cons_append]
          rw [hback, parseNatNum_serNat i.toNat rest hnd]
          simp only [Option.map_some']
          have hv : ((i.toNat : Nat) : Int) = i := by omega
          rw [hv]
      | jarr xs =>
        cases xs with
        | nil =>
          show parseVal (fuel + 1) ('[' :: ']' :: rest) = _
          exact pv_arr_nil fuel rest
        | cons x xs =>
          simp only [sizeJ] at hsz
          obtain ⟨c, cs, hser, hne⟩ := serVal_head x
          have hl : serVal (.jarr (x :: xs)) ++ rest =
              '[' :: c :: (cs ++ (serElemsTail xs ++ rest)) := by
            show '[' :: ((serVal x ++ serElemsTail xs) ++ rest) = _
            rw [hser]
            simp [List.append_assoc]
          rw [hl, pv_arr fuel c _ hne]
          have hback : c :: (cs ++ (serElemsTail xs ++ rest)) =
              serVal x ++ serElemsTail xs ++ rest := by
            rw [hser]
            simp [List.append_assoc]
          rw [hback, ihB x xs rest (by omega)]
          rfl
      | jobj ms =>
        match ms with
        | [] =>
          show parseVal (fuel + 1) ('{' :: '}' :: rest) = _
          exact pv_obj_nil fuel rest
        | (k, v) :: ms =>
          simp only [sizeJ] at hsz
          have hl : serVal (.jobj ((k, v) :: ms)) ++ rest =
              '{' :: '"' :: ((((escapeChars k.data ++ ['"']) ++ (':' :: ' ' :: serVal v)) ++
                serMembersTail ms) ++ rest) := by
            show '{' :: ((serStr k ++ ':' :: ' ' :: serVal v ++ serMembersTail ms) ++ rest) = _
            simp [serStr, List.append_assoc]
          rw [hl, pv_obj fuel '"' _ (by decide)]
          have hback : ('"' : Char) :: ((((escapeChars k.data ++ ['"']) ++
                (':' :: ' ' :: serVal v)) ++ serMembersTail ms) ++ rest) =
              serStr k ++ ':' :: ' ' :: serVal v ++ serMembersTail ms ++ rest := by
            simp [serStr, List.append_assoc]
          rw [hback, ihC k v ms rest (by omega)]
          rfl
    · -- parseElems inverts the element list serialization
      intro x xs rest hsz
      simp only [sizeL] at hsz
      rw [pe_step]
      have h1 : parseVal fuel (serVal x ++ serElemsTail xs ++ rest) =
          some (x, serElemsTail xs ++ rest) := by
        rw [List.append_assoc]
        exact ihA x (serElemsTail xs ++ rest) (by omega) (noDigitHead_elems xs rest)
      rw [h1]
      cases xs with
      | nil => rfl
      | cons y ys =>
        show (parseElems fuel (serVal y ++ serElemsTail ys ++ rest)).map
            (fun p => (x :: p.1, p.2)) = _
        rw [ihB y ys rest (by omega)]
        rfl
    · -- parseMembers inverts the member list serialization
      intro k v ms rest hsz
      simp only [sizeM] at hsz
      show parseMembers (fuel + 1) ('"' :: (((escapeChars k.data ++ ['"']) ++
          (':' :: ' ' :: serVal v)) ++ serMembersTail ms ++ rest)) = _
      rw [pm_step]
      simp only [List.append_assoc, List.cons_append, List.nil_append]
      have hb : k.data.length <
          ((escapeChars k.data ++ '"' :: ':' :: ' ' ::
            (serVal v ++ (serMembersTail ms ++ rest))).length + 1) := by
        have h := length_le_escapeChars k.data
        simp only [List.length_append, List.length_cons]
        omega
      rw [parseStrBody_escape k.data _ _ hb]
      have h1 : parseVal fuel (serVal v ++ (serMembersTail ms ++ rest)) =
          some (v, serMembersTail ms ++ rest) :=
        ihA v (serMembersTail ms ++ rest) (by omega) (noDigitHead_members ms rest)
      show (match parseVal fuel (serVal v ++ (serMembersTail ms ++ rest)) with
            | none => none
            | some (w, r3) =>
              match r3 with
              | '}' :: r4 => some ([(String.mk k.data, w)], r4)
              | ',' :: ' ' :: r5 =>
                (parseMembers fuel r5).map
                  (fun (p : List (String × JVal) × List Char) =>
                    ((String.mk k.data, w) :: p.1, p.2))
              | _ => none) = _
      rw [h1]
      match ms with
      | [] => rfl
      | (k2, v2) :: ms2 =>
        show (parseMembers fuel
            (serStr k2 ++ ':' :: ' ' :: serVal v2 ++ serMembersTail ms2 ++ rest)).map
            (fun p => ((String.mk k.data, v) :: p.1, p.2)) = _
        rw [ihC k2 v2 ms2 rest (by omega)]
        rfl

theorem serNat_length_pos (n : Nat) : 0 < (serNat n).length := by
  obtain ⟨c, cs, h, _⟩ := serNat_head n
  simp [h]

mutual
theorem sizeJ_le_len : (v : JVal) → sizeJ v ≤ (serVal v).length
  | .jnum i => by
    simp only [sizeJ, serVal, serInt]
    split
    · have := serNat_length_pos i.natAbs
      simp only [List.length_cons]
      omega
    · exact serNat_length_pos _
  | .jstr s => by
    simp only [sizeJ, serVal, serStr, List.cons_append, List.length_cons, List.length_append]
    omega
  | .jbool b => by cases b <;> simp [sizeJ, serVal]
  | .jnull => by simp [sizeJ, serVal]
  | .jarr [] => by simp [sizeJ, sizeL, serVal]
  | .jarr (x :: xs) => by
    have h1 := sizeJ_le_len x
    have h2 := sizeL_le_len xs
    simp only [sizeJ, sizeL, serVal, List.length_cons, List.length_append]
    omega
  | .jobj [] => by simp [sizeJ, sizeM, serVal]
  | .jobj ((k, v) :: ms) => by
    have h1 := sizeJ_le_len v
    have h2 := sizeM_le_len ms
    simp only [sizeJ, sizeM, serVal, List.cons_append, List.length_cons, List.length_append]
    omega

theorem sizeL_le_len : (xs : List JVal) → 1 + sizeL xs ≤ (serElemsTail xs).length
  | [] => by simp [sizeL, serElemsTail]
  | x :: xs => by
    have h1 := sizeJ_le_len x
    have h2 := sizeL_le_len xs
    simp only [sizeL, serElemsTail, List.length_cons, List.length_append]
    omega

theorem sizeM_le_len : (ms : List (String × JVal)) → 1 + sizeM ms ≤ (serMembersTail ms).length
  | [] => by simp [sizeM, serMembersTail]
  | (k, v) :: ms => by
    have h1 := sizeJ_le_len v
    have h2 := sizeM_le_len ms
    simp only [sizeM, serMembersTail, List.cons_append, List.length_cons, List.length_append]
    omega
end

/-- Python's `json.loads` inverts `json.dumps` on the JSON data model. -/
theorem pyJson_roundtrip (v : JVal) : pyJsonLoads (pyJsonDumps v) = some v := by
  have hA := (parse_ser ((serVal v).length + 1)).1
  have h := hA v [] (by have := sizeJ_le_len v; omega) trivial
  rw [List.append_nil] at h
  show (match parseVal ((serVal v).length + 1) (serVal v) with
        | some (w, []) => some w
        | _ => none) = some v
  rw [h]

theorem dictGet_dictSet_self (d : PyDict) (k : String) (v : JVal) :
    dictGet (dictSet d k v) k = some v := by
  induction d with
  | nil => simp [dictGet, dictSet]
  | cons kv rest ih =>
    obtain ⟨k2, w⟩ := kv
    by_cases h : k2 = k
    · simp [dictGet, dictSet, h]
    · simp [dictGet, dictSet, h, ih]

theorem dictGet_dictSet_ne (d : PyDict) (k k2 : String) (v : JVal) (h : ¬ k = k2) :
    dictGet (dictSet d k v) k2 = dictGet d k2 := by
  induction d with
  | nil => simp [dictGet, dictSet, h]
  | cons kv rest ih =>
    obtain ⟨k3, w⟩ := kv
    by_cases h3 : k3 = k
    · subst h3
      simp [dictGet, dictSet, h]
    · simp [dictGet, dictSet, h3, ih]

/-- C3: for every parameter name and every parameter value appearing in a
"values" or "categories" list, decoding an encoded value with
`decode_values` under the decode context produced by `encode_values`
yields the original value (`decode(encode(v)) == v`): when the first list
entry is not numeric the list is JSON-encoded and `json.loads` is
registered, and decoding the encoded value restores it exactly; when the
first entry is numeric nothing is encoded and the value passes through
unchanged; keys with no registered decode function are passed through the
identity. -/
theorem c3_encode_decode_roundtrip :
    (∀ (param key other : String) (values : PyDict) (v0 : JVal) (vs : List JVal) (v : JVal),
      ((key, other) = ("values", "categories") ∨ (key, other) = ("categories", "values")) →
      dictGet values key = some (.jarr (v0 :: vs)) →
      dictGet values other = none →
      v ∈ v0 :: vs →
      isNumericPy v0 = false →
      encode_values param values [] =
        some (dictSet values key (.jarr ((v0 :: vs).map (fun w => .jstr (pyJsonDumps w)))),
              [(param, pyJsonLoadsFn)]) ∧
      decode_values [(param, .jstr (pyJsonDumps v))] [(param, pyJsonLoadsFn)] =
        some [(param, v)]) ∧
    (∀ (param key other : String) (values : PyDict) (v0 : JVal) (vs : List JVal) (v : JVal),
      ((key, other) = ("values", "categories") ∨ (key, other) = ("categories", "values")) →
      dictGet values key = some (.jarr (v0 :: vs)) →
      dictGet values other = none →
      v ∈ v0 :: vs →
      isNumericPy v0 = true →
      encode_values param values [] = some (values, []) ∧
      decode_values [(param, v)] [] = some [(param, v)]) ∧
    (∀ (k : String) (v : JVal) (ctx : DecodeCtx), ctxGet ctx k = none →
      decode_values [(k, v)] ctx = some [(k, v)]) := by
  refine ⟨?_, ?_, ?_⟩
  · intro param key other values v0 vs v hko hget hother hmem hnum
    have hdec : decode_values [(param, .jstr (pyJsonDumps v))] [(param, pyJsonLoadsFn)] =
        some [(param, v)] := by
      simp [decode_values, ctxGet, pyJsonLoadsFn, pyJson_roundtrip]
    rcases hko with hko | hko <;>
      (obtain ⟨hk, ho⟩ := Prod.mk.injEq .. ▸ hko; subst hk; subst ho)
    · have h1 : encodeValuesKey param "values" (values, ([] : DecodeCtx)) =
          some (dictSet values "values"
                  (.jarr ((v0 :: vs).map (fun w => .jstr (pyJsonDumps w)))),
                [(param, pyJsonLoadsFn)]) := by
        simp [encodeValuesKey, hget, hnum, ctxSet]
      have h2 : dictGet (dictSet values "values"
          (.jarr ((v0 :: vs).map (fun w => .jstr (pyJsonDumps w))))) "categories" = none := by
        rw [dictGet_dictSet_ne values "values" "categories" _ (by decide)]
        exact hother
      have h3 : encodeValuesKey param "categories"
          (dictSet values "values" (.jarr ((v0 :: vs).map (fun w => .jstr (pyJsonDumps w)))),
           [(param, pyJsonLoadsFn)]) =
          some (dictSet values "values"
                  (.jarr ((v0 :: vs).map (fun w => .jstr (pyJsonDumps w)))),
                [(param, pyJsonLoadsFn)]) := by
        simp only [encodeValuesKey]
        rw [h2]
      refine ⟨?_, hdec⟩
      simp only [encode_values]
      rw [h1]
      exact h3
    · have h1 : encodeValuesKey param "values" (values, ([] : DecodeCtx)) =
          some (values, []) := by
        simp [encodeValuesKey, hother]
      have h3 : encodeValuesKey param "categories" (values, ([] : DecodeCtx)) =
          some (dictSet values "categories"
                  (.jarr ((v0 :: vs).map (fun w => .jstr (pyJsonDumps w)))),
                [(param, pyJsonLoadsFn)]) := by
        simp [encodeValuesKey, hget, hnum, ctxSet]
      refine ⟨?_, hdec⟩
      simp only [encode_values]
      rw [h1]
      exact h3
  · intro param key other values v0 vs v hko hget hother hmem hnum
    have hdec : decode_values [(param, v)] [] = some [(param, v)] := by
      simp [decode_values, ctxGet, identity]
    rcases hko with hko | hko <;>
      (obtain ⟨hk, ho⟩ := Prod.mk.injEq .. ▸ hko; subst hk; subst ho)
    · have h1 : encodeValuesKey param "values" (values, ([] : DecodeCtx)) =
          some (values, []) := by
        simp [encodeValuesKey, hget, hnum]
      have h3 : encodeValuesKey param "categories" (values, ([] : DecodeCtx)) =
          some (values, []) := by
        simp [encodeValuesKey, hother]
      refine ⟨?_, hdec⟩
      simp only [encode_values]
      rw [h1]
      exact h3
    · have h1 : encodeValuesKey param "values" (values, ([] : DecodeCtx)) =
          some (values, []) := by
        simp [encodeValuesKey, hother]
      have h3 : encodeValuesKey param "categories" (values, ([] : DecodeCtx)) =
          some (values, []) := by
        simp [encodeValuesKey, hget, hnum]
      refine ⟨?_, hdec⟩
      simp only [encode_values]
      rw [h1]
      exact h3
  · intro k v ctx h
    simp [decode_values, h, identity]

/-- Witness for C3 at a concrete grid-search space whose "values" list
holds two lists of ints. -/
theorem c3_encode_decode_roundtrip_witness :
    encode_values "p"
        [("space", .jstr "grid_search"),
         ("values", .jarr [.jarr [.jnum 1, .jnum 2], .jarr [.jnum 3]])] [] =
      some (dictSet
              [("space", .jstr "grid_search"),
               ("values", .jarr [.jarr [.jnum 1, .jnum 2], .jarr [.jnum 3]])]
              "values"
              (.jarr (([(.jarr [.jnum 1, .jnum 2] : JVal), .jarr [.jnum 3]]).map
                (fun w => .jstr (pyJsonDumps w)))),
            [("p", pyJsonLoadsFn)]) ∧
    decode_values [("p", .jstr (pyJsonDumps (.jarr [.jnum 1, .jnum 2])))]
        [("p", pyJsonLoadsFn)] =
      some [("p", .jarr [.jnum 1, .jnum 2])] :=
  c3_encode_decode_roundtrip.1 "p" "values" "categories"
    [("space", .jstr "grid_search"),
     ("values", .jarr [.jarr [.jnum 1, .jnum 2], .jarr [.jnum 3]])]
    (.jarr [.jnum 1, .jnum 2]) [.jarr [.jnum 3]] (.jarr [.jnum 1, .jnum 2])
    (Or.inl rfl) rfl rfl (List.mem_cons_self _ _) rfl

theorem pyEnumerate_map_snd (l : List ℚ) :
    ∀ i, (pyEnumerate i l).map Prod.snd = l := by
  induction l with
  | nil => intro i; simp [pyEnumerate]
  | cons x xs ih => intro i; simp [pyEnumerate, ih]

theorem pyEnumerate_ne_nil {l : List ℚ} (h : l ≠ []) (i : Nat) :
    pyEnumerate i l ≠ [] := by
  cases l with
  | nil => exact absurd rfl h
  | cons x xs => simp [pyEnumerate]

theorem foldl_bestMax (xs : List (Nat × ℚ)) (x : Nat × ℚ) :
    ((xs.foldl (fun acc y => if acc.2 < y.2 then y else acc) x) = x ∨
      (xs.foldl (fun acc y => if acc.2 < y.2 then y else acc) x) ∈ xs) ∧
    x.2 ≤ (xs.foldl (fun acc y => if acc.2 < y.2 then y else acc) x).2 ∧
    ∀ y ∈ xs, y.2 ≤ (xs.foldl (fun acc y => if acc.2 < y.2 then y else acc) x).2 := by
  induction xs generalizing x with
  | nil => exact ⟨Or.inl rfl, le_refl _, by simp⟩
  | cons z zs ih =>
    obtain ⟨ha, hb, hc⟩ := ih (if x.2 < z.2 then z else x)
    simp only [List.foldl_cons]
    refine ⟨?_, ?_, ?_⟩
    · rcases ha with ha | ha
      · rw [ha]
        split
        · exact Or.inr (List.mem_cons_self _ _)
        · exact Or.inl rfl
      · exact Or.inr (List.mem_cons_of_mem _ ha)
    · refine le_trans ?_ hb
      split
      · exact le_of_lt (by assumption)
      · exact le_refl _
    · intro y hy
      rcases List.mem_cons.mp hy with hy | hy
      · subst hy
        refine le_trans ?_ hb
        split
        · exact le_refl _
        · exact le_of_not_lt (by assumption)
      · exact hc y hy

theorem foldl_bestMin (xs : List (Nat × ℚ)) (x : Nat × ℚ) :
    ((xs.foldl (fun acc y => if y.2 < acc.2 then y else acc) x) = x ∨
      (xs.foldl (fun acc y => if y.2 < acc.2 then y else acc) x) ∈ xs) ∧
    (xs.foldl (fun acc y => if y.2 < acc.2 then y else acc) x).2 ≤ x.2 ∧
    ∀ y ∈ xs, (xs.foldl (fun acc y => if y.2 < acc.2 then y else acc) x).2 ≤ y.2 := by
  induction xs generalizing x with
  | nil => exact ⟨Or.inl rfl, le_refl _, by simp⟩
  | cons z zs ih =>
    obtain ⟨ha, hb, hc⟩ := ih (if z.2 < x.2 then z else x)
    simp only [List.foldl_cons]
    refine ⟨?_, ?_, ?_⟩
    · rcases ha with ha | ha
      · rw [ha]
        split
        · exact Or.inr (List.mem_cons_self _ _)
        · exact Or.inl rfl
      · exact Or.inr (List.mem_cons_of_mem _ ha)
    · refine le_trans hb ?_
      split
      · exact le_of_lt (by assumption)
      · exact le_refl _
    · intro y hy
      rcases List.mem_cons.mp hy with hy | hy
      · subst hy
        refine le_trans hb ?_
        split
        · exact le_refl _
        · exact le_of_not_lt (by assumption)
      · exact hc y hy

theorem pyBestBy_spec (dir : Direction) (l : List (Nat × ℚ)) (hne : l ≠ []) :
    ∃ p, pyBestBy dir l = some p ∧ (p ∈ l) ∧
      (dir = .maximize → ∀ y ∈ l, y.2 ≤ p.2) ∧
      (dir = .minimize → ∀ y ∈ l, p.2 ≤ y.2) := by
  cases l with
  | nil => exact absurd rfl hne
  | cons x xs =>
    cases dir with
    | maximize =>
      obtain ⟨ha, hb, hc⟩ := foldl_bestMax xs x
      refine ⟨_, rfl, ?_, ?_, ?_⟩
      · rcases ha with ha | ha
        · rw [ha]; exact List.mem_cons_self _ _
        · exact List.mem_cons_of_mem _ ha
      · intro _ y hy
        rcases List.mem_cons.mp hy with hy | hy
        · subst hy; exact hb
        · exact hc y hy
      · intro hcontra; cases hcontra
    | minimize =>
      obtain ⟨ha, hb, hc⟩ := foldl_bestMin xs x
      refine ⟨_, rfl, ?_, ?_, ?_⟩
      · rcases ha with ha | ha
        · rw [ha]; exact List.mem_cons_self _ _
        · exact List.mem_cons_of_mem _ ha
      · intro hcontra; cases hcontra
      · intro _ y hy
        rcases List.mem_cons.mp hy with hy | hy
        · subst hy; exact hb
        · exact hc y hy

theorem hasMetric_eq (cfg : ExecutorCfg) (stats : TrainStats) (s : String) :
    _has_metric cfg stats s =
      (match alookup stats s with
      | none => false
      | some ss =>
        match alookup ss cfg.output_feature with
        | none => false
        | some fs =>
          match alookup fs cfg.metric with
          | none => false
          | some ms => !ms.isEmpty) := by
  cases stats <;> rfl

theorem hasMetric_iff (cfg : ExecutorCfg) (stats : TrainStats) (s : String) :
    _has_metric cfg stats s = true ↔
      ∃ ss fs ms, alookup stats s = some ss ∧ alookup ss cfg.output_feature = some fs ∧
        alookup fs cfg.metric = some ms ∧ ms ≠ [] := by
  rw [hasMetric_eq]
  rcases h1 : alookup stats s with _ | ss
  · simp [h1]
  · simp only [h1]
    rcases h2 : alookup ss cfg.output_feature with _ | fs
    · simp [h2]
    · simp only [h2]
      rcases h3 : alookup fs cfg.metric with _ | ms
      · simp [h2, h3]
      · simp [h2, h3]

theorem score_from_isSome (cfg : ExecutorCfg) (dir : Direction) (stats : TrainStats)
    (s : String) (hs : ¬ s = "") (h : _has_metric cfg stats s = true) :
    ∃ q, get_metric_score_from_train_stats cfg dir stats (some s) = some q := by
  obtain ⟨ss, fs, ms, h1, h2, h3, hne⟩ := (hasMetric_iff cfg stats s).mp h
  obtain ⟨p, hp, _⟩ := pyBestBy_spec dir (pyEnumerate 0 ms) (pyEnumerate_ne_nil hne 0)
  refine ⟨p.2, ?_⟩
  simp only [get_metric_score_from_train_stats, if_neg hs, h1, h2, h3, hp]

/-- C1: `get_metric_score` returns the score from the validation split
when that split is present (split key exists, output-feature key exists
under it, metric key exists under the feature, and the value list is
non-empty — exactly `_has_metric`); otherwise it falls back to the
training split under the same presence test; it raises a `RuntimeError`
(modelled as `none`, and both successful branches are shown to produce a
value) exactly when neither split is present. -/
theorem c1_get_metric_score (cfg : ExecutorCfg) (dir : Direction) (stats : TrainStats) :
    (∀ s, _has_metric cfg stats s = true ↔
      ∃ ss fs ms, alookup stats s = some ss ∧ alookup ss cfg.output_feature = some fs ∧
        alookup fs cfg.metric = some ms ∧ ms ≠ []) ∧
    (_has_metric cfg stats VALIDATION = true →
      get_metric_score cfg dir stats =
        get_metric_score_from_train_stats cfg dir stats (some VALIDATION) ∧
      ∃ q, get_metric_score cfg dir stats = some q) ∧
    (_has_metric cfg stats VALIDATION = false → _has_metric cfg stats TRAINING = true →
      get_metric_score cfg dir stats =
        get_metric_score_from_train_stats cfg dir stats (some TRAINING) ∧
      ∃ q, get_metric_score cfg dir stats = some q) ∧
    (get_metric_score cfg dir stats = none ↔
      _has_metric cfg stats VALIDATION = false ∧ _has_metric cfg stats TRAINING = false) := by
  refine ⟨fun s => hasMetric_iff cfg stats s, ?_, ?_, ?_⟩
  · intro h
    have heq : get_metric_score cfg dir stats =
        get_metric_score_from_train_stats cfg dir stats (some VALIDATION) := by
      unfold get_metric_score
      rw [if_pos h]
    obtain ⟨q, hq⟩ := score_from_isSome cfg dir stats VALIDATION (by decide) h
    exact ⟨heq, q, heq.trans hq⟩
  · intro hv ht
    have heq : get_metric_score cfg dir stats =
        get_metric_score_from_train_stats cfg dir stats (some TRAINING) := by
      unfold get_metric_score
      rw [hv]
      simp only [Bool.false_eq_true, if_false]
      rw [if_pos ht]
    obtain ⟨q, hq⟩ := score_from_isSome cfg dir stats TRAINING (by decide) ht
    exact ⟨heq, q, heq.trans hq⟩
  · constructor
    · intro h
      by_cases hv : _has_metric cfg stats VALIDATION = true
      · obtain ⟨q, hq⟩ := score_from_isSome cfg dir stats VALIDATION (by decide) hv
        unfold get_metric_score at h
        rw [if_pos hv] at h
        rw [h] at hq
        cases hq
      · rw [Bool.not_eq_true] at hv
        by_cases ht : _has_metric cfg stats TRAINING = true
        · obtain ⟨q, hq⟩ := score_from_isSome cfg dir stats TRAINING (by decide) ht
          unfold get_metric_score at h
          rw [hv] at h
          simp only [Bool.false_eq_true, if_false] at h
          rw [if_pos ht] at h
          rw [h] at hq
          cases hq
        · rw [Bool.not_eq_true] at ht
          exact ⟨hv, ht⟩
    · rintro ⟨hv, ht⟩
      unfold get_metric_score
      rw [hv, ht]
      simp

/-- Witness for C1: a statistics dictionary whose validation split is
present for the configured feature and metric. -/
theorem c1_get_metric_score_witness :
    get_metric_score ⟨"of", "acc", "validation"⟩ .maximize
        [("validation", [("of", [("acc", [(1 : ℚ) / 2, 3 / 4])])])] =
      get_metric_score_from_train_stats ⟨"of", "acc", "validation"⟩ .maximize
        [("validation", [("of", [("acc", [(1 : ℚ) / 2, 3 / 4])])])] (some VALIDATION) ∧
    ∃ q, get_metric_score ⟨"of", "acc", "validation"⟩ .maximize
        [("validation", [("of", [("acc", [(1 : ℚ) / 2, 3 / 4])])])] = some q :=
  (c1_get_metric_score ⟨"of", "acc", "validation"⟩ .maximize
      [("validation", [("of", [("acc", [(1 : ℚ) / 2, 3 / 4])])])]).2.1 (by decide)

/-- C2: when the selected split holds a non-empty value list for the
configured feature and metric, `get_metric_score_from_train_stats`
returns the value selected by the metric's best-direction comparator:
a member of the list that is maximal when the direction is maximize and
minimal when it is minimize (not merely the last value). -/
theorem c2_best_checkpoint_score (cfg : ExecutorCfg) (dir : Direction) (stats : TrainStats)
    (s : String) (ss : SplitStats) (fs : FeatureStats) (ms : MetricList)
    (hs : ¬ s = "")
    (h1 : alookup stats s = some ss) (h2 : alookup ss cfg.output_feature = some fs)
    (h3 : alookup fs cfg.metric = some ms) (hne : ms ≠ []) :
    ∃ q, get_metric_score_from_train_stats cfg dir stats (some s) = some q ∧ q ∈ ms ∧
      (dir = .maximize → ∀ x ∈ ms, x ≤ q) ∧
      (dir = .minimize → ∀ x ∈ ms, q ≤ x) := by
  obtain ⟨p, hp, hmem, hmax, hmin⟩ :=
    pyBestBy_spec dir (pyEnumerate 0 ms) (pyEnumerate_ne_nil hne 0)
  refine ⟨p.2, ?_, ?_, ?_, ?_⟩
  · simp only [get_metric_score_from_train_stats, if_neg hs, h1, h2, h3, hp]
  · have hms := pyEnumerate_map_snd ms 0
    rw [← hms]
    exact List.mem_map_of_mem Prod.snd hmem
  · intro hd x hx
    have hms := pyEnumerate_map_snd ms 0
    rw [← hms] at hx
    obtain ⟨y, hy, hyx⟩ := List.mem_map.mp hx
    subst hyx
    exact hmax hd y hy
  · intro hd x hx
    have hms := pyEnumerate_map_snd ms 0
    rw [← hms] at hx
    obtain ⟨y, hy, hyx⟩ := List.mem_map.mp hx
    subst hyx
    exact hmin hd y hy

/-- Witness for C2: the comparator picks 3/4 (the maximum) out of
`[1/2, 3/4, 1/4]`, not the last value 1/4. -/
theorem c2_best_checkpoint_score_witness :
    ∃ q, get_metric_score_from_train_stats ⟨"of", "acc", "validation"⟩ .maximize
        [("validation", [("of", [("acc", [(1 : ℚ) / 2, 3 / 4, 1 / 4])])])]
        (some "validation") = some q ∧
      q ∈ [(1 : ℚ) / 2, 3 / 4, 1 / 4] ∧
      (Direction.maximize = .maximize → ∀ x ∈ [(1 : ℚ) / 2, 3 / 4, 1 / 4], x ≤ q) ∧
      (Direction.maximize = .minimize → ∀ x ∈ [(1 : ℚ) / 2, 3 / 4, 1 / 4], q ≤ x) :=
  c2_best_checkpoint_score ⟨"of", "acc", "validation"⟩ .maximize
    [("validation", [("of", [("acc", [(1 : ℚ) / 2, 3 / 4, 1 / 4])])])]
    "validation" _ _ _ (by decide) rfl rfl rfl (by decide)

/-- Counterexample for C9 as stated: with the metric path present and a
numeric (integer) terminal value `5`, the claim says the terminal value
is returned, but the code raises `ValueError` because `5` is not a
Python float. -/
theorem c9_eval_int_counterexample :
    alookup [("of", EVal.edict [("m", EVal.eint 5)])] "of" =
      some (.edict [("m", .eint 5)]) ∧
    walkMetricPath (splitDot "m") (.edict [("m", .eint 5)]) = some (.eint 5) ∧
    isNumericE (.eint 5) = true ∧
    get_metric_score_from_eval_stats ⟨"of", "m", "validation"⟩
        [("of", .edict [("m", .eint 5)])] =
      .error "ValueError: the metric is not a numerical value" :=
  ⟨rfl, rfl, rfl, rfl⟩

/-- C9 (amended): `get_metric_score_from_eval_stats` walks the
dot-separated metric path under the output-feature key; it returns the
terminal value exactly when the walk succeeds and the terminal is a
float (any non-float terminal, including integer numerics, is rejected
with an error); it errors exactly when `_has_eval_metric` is false, i.e.
when a path segment is absent, an intermediate value is not a mapping,
or the terminal is not a float. -/
theorem c9_eval_stats_amended (cfg : ExecutorCfg) (eval_stats : EvalStats) :
    (∀ q, get_metric_score_from_eval_stats cfg eval_stats = .ok q ↔
      ∃ v, alookup eval_stats cfg.output_feature = some v ∧
        walkMetricPath (splitDot cfg.metric) v = some (.efloat q)) ∧
    (_has_eval_metric cfg (some eval_stats) = true ↔
      ∃ q, get_metric_score_from_eval_stats cfg eval_stats = .ok q) ∧
    ((∃ e, get_metric_score_from_eval_stats cfg eval_stats = .error e) ↔
      _has_eval_metric cfg (some eval_stats) = false) := by
  unfold get_metric_score_from_eval_stats _has_eval_metric
  rcases h0 : alookup eval_stats cfg.output_feature with _ | v
  · simp [h0]
  · simp only [h0]
    rcases hw : walkMetricPath (splitDot cfg.metric) v with _ | w
    · simp [hw]
    · cases w <;> simp [hw]

/-- Witness for C9 at a concrete eval-stats dictionary with a float
terminal value. -/
theorem c9_eval_stats_amended_witness :
    _has_eval_metric ⟨"of", "m", "validation"⟩
        (some [("of", EVal.edict [("m", EVal.efloat (1 / 2))])]) = true ↔
      ∃ q, get_metric_score_from_eval_stats ⟨"of", "m", "validation"⟩
        [("of", EVal.edict [("m", EVal.efloat (1 / 2))])] = .ok q :=
  (c9_eval_stats_amended ⟨"of", "m", "validation"⟩
    [("of", EVal.edict [("m", EVal.efloat (1 / 2))])]).2.1

theorem rowLe_total (asc : Bool) :
    ∀ a b : TrialRow, rowLeB asc a b = true ∨ rowLeB asc b a = true := by
  intro a b
  cases asc <;> simp [rowLeB] <;> exact le_total _ _

theorem rowLe_trans (asc : Bool) (a b c : TrialRow) :
    rowLeB asc a b = true → rowLeB asc b c = true → rowLeB asc a c = true := by
  cases asc <;> simp [rowLeB] <;> intro h1 h2
  · exact le_trans h2 h1
  · exact le_trans h1 h2

theorem filter_orderedInsert_score (asc : Bool) (s : ℚ) (a : TrialRow)
    (l : List TrialRow) :
    (List.orderedInsert (fun x y => rowLeB asc x y = true) a l).filter
        (fun r => decide (r.metric_score = s)) =
      if a.metric_score = s then
        a :: l.filter (fun r => decide (r.metric_score = s))
      else l.filter (fun r => decide (r.metric_score = s)) := by
  induction l with
  | nil =>
    by_cases has : a.metric_score = s <;>
      simp [List.orderedInsert, List.filter, has]
  | cons b bs ih =>
    simp only [List.orderedInsert]
    by_cases hr : rowLeB asc a b = true
    · rw [if_pos hr]
      by_cases has : a.metric_score = s <;> simp [List.filter_cons, has]
    · rw [if_neg hr]
      by_cases hbs : b.metric_score = s
      · by_cases has : a.metric_score = s
        · exfalso
          apply hr
          cases asc <;> simp [rowLeB, has, hbs]
        · simp [List.filter_cons, hbs, ih, has]
      · by_cases has : a.metric_score = s <;>
          simp [List.filter_cons, hbs, ih, has]

theorem filter_insertionSort_score (asc : Bool) (s : ℚ) (l : List TrialRow) :
    (List.insertionSort (fun x y => rowLeB asc x y = true) l).filter
        (fun r => decide (r.metric_score = s)) =
      l.filter (fun r => decide (r.metric_score = s)) := by
  induction l with
  | nil => rfl
  | cons a l ih =>
    simp only [List.insertionSort]
    rw [filter_orderedInsert_score]
    by_cases has : a.metric_score = s
    · rw [if_pos has, ih]
      simp [List.filter_cons, has]
    · rw [if_neg has, ih]
      simp [List.filter_cons, has]

/-- C4 (amended): the aggregator's output is sorted by metric score,
descending when the goal is maximize and ascending otherwise, and is a
permutation of the input records; on scores `[0.8, 0.6, 0.95]` the
maximize order is `[0.95, 0.8, 0.6]` and the minimize order is
`[0.6, 0.8, 0.95]`.  Ties are NOT kept in pre-sort order: `sort_values`
runs its default unstable quicksort, and for a descending sort pandas
reverses the ascending indexer wholesale, so on frames small enough for
numpy's insertion-sort pass (fewer than 16 rows) tied rows under
goal=maximize come out in reversed pre-sort order, while only the
ascending (non-maximize) leg keeps them in pre-sort order there. -/
theorem c4_result_ordering_amended (goal : String) (rows : List TrialRow) :
    (goal = MAXIMIZE →
      List.Sorted (fun a b : TrialRow => b.metric_score ≤ a.metric_score)
        (orderedTrialRows goal rows)) ∧
    (¬ goal = MAXIMIZE →
      List.Sorted (fun a b : TrialRow => a.metric_score ≤ b.metric_score)
        (orderedTrialRows goal rows)) ∧
    (orderedTrialRows goal rows).Perm rows ∧
    (rows.length < 16 → goal = MAXIMIZE → ∀ s : ℚ,
      (orderedTrialRows goal rows).filter (fun r => decide (r.metric_score = s)) =
        (rows.filter (fun r => decide (r.metric_score = s))).reverse) ∧
    (rows.length < 16 → ¬ goal = MAXIMIZE → ∀ s : ℚ,
      (orderedTrialRows goal rows).filter (fun r => decide (r.metric_score = s)) =
        rows.filter (fun r => decide (r.metric_score = s))) ∧
    orderedTrialRows "maximize" [⟨1, 8 / 10⟩, ⟨2, 6 / 10⟩, ⟨3, 95 / 100⟩] =
      [⟨3, 95 / 100⟩, ⟨1, 8 / 10⟩, ⟨2, 6 / 10⟩] ∧
    orderedTrialRows "minimize" [⟨1, 8 / 10⟩, ⟨2, 6 / 10⟩, ⟨3, 95 / 100⟩] =
      [⟨2, 6 / 10⟩, ⟨1, 8 / 10⟩, ⟨3, 95 / 100⟩] := by
  haveI hT : IsTotal TrialRow (fun a b => rowLeB true a b = true) :=
    ⟨rowLe_total _⟩
  haveI hTr : IsTrans TrialRow (fun a b => rowLeB true a b = true) :=
    ⟨fun a b c => rowLe_trans _ a b c⟩
  have hsorted : List.Sorted
      (fun a b : TrialRow => a.metric_score ≤ b.metric_score) (nargsortAsc rows) := by
    refine (List.sorted_insertionSort (fun a b => rowLeB true a b = true) rows).imp ?_
    intro a b h
    simpa [rowLeB] using h
  have hperm : (nargsortAsc rows).Perm rows := List.perm_insertionSort _ rows
  have hmax : goal = MAXIMIZE →
      orderedTrialRows goal rows = (nargsortAsc rows).reverse := by
    intro hg
    subst hg
    simp [orderedTrialRows, sortValuesByScore]
  have hmin : ¬ goal = MAXIMIZE → orderedTrialRows goal rows = nargsortAsc rows := by
    intro hg
    have hb : (goal != MAXIMIZE) = true := by simpa [bne] using hg
    simp [orderedTrialRows, sortValuesByScore, hb]
  refine ⟨?_, ?_, ?_, ?_, ?_, ?_, ?_⟩
  · intro hg
    rw [hmax hg]
    exact List.pairwise_reverse.mpr hsorted
  · intro hg
    rw [hmin hg]
    exact hsorted
  · by_cases hg : goal = MAXIMIZE
    · rw [hmax hg]
      exact ((nargsortAsc rows).reverse_perm).trans hperm
    · rw [hmin hg]
      exact hperm
  · intro _ hg s
    rw [hmax hg, List.filter_reverse]
    exact congrArg List.reverse (filter_insertionSort_score true s rows)
  · intro _ hg s
    rw [hmin hg]
    exact filter_insertionSort_score true s rows
  · norm_num [orderedTrialRows, sortValuesByScore, nargsortAsc, List.insertionSort,
      List.orderedInsert, rowLeB, MAXIMIZE]
  · have hb : ("minimize" != "maximize") = true := by decide
    norm_num [orderedTrialRows, sortValuesByScore, nargsortAsc, hb, List.insertionSort,
      List.orderedInsert, rowLeB, MAXIMIZE]

/-- Witness for C4 (amended): on a two-row frame tied at score 1 with
goal=maximize, the sorted ties are the reverse of the pre-sort ties. -/
theorem c4_result_ordering_amended_witness :
    (orderedTrialRows "maximize" [⟨1, (1 : ℚ)⟩, ⟨2, 1⟩]).filter
        (fun r => decide (r.metric_score = 1)) =
      (([⟨1, (1 : ℚ)⟩, ⟨2, 1⟩] : List TrialRow).filter
        (fun r => decide (r.metric_score = 1))).reverse :=
  (c4_result_ordering_amended "maximize" [⟨1, 1⟩, ⟨2, 1⟩]).2.2.2.1
    (by decide) rfl 1

/-- C4, counterexample to the original stability conjunct: two trials
tied at score 1 under goal=maximize.  pandas computes the ascending
indexer (here the identity) and reverses it for the descending sort, so
the tied rows come out as trial 2 before trial 1 — the reverse of the
pre-sort order the claim requires, not the pre-sort order. -/
theorem c4_tie_reversal_counterexample :
    orderedTrialRows "maximize" [⟨1, 1⟩, ⟨2, 1⟩] = [⟨2, 1⟩, ⟨1, 1⟩] ∧
    ¬ orderedTrialRows "maximize" [⟨1, 1⟩, ⟨2, 1⟩] = [⟨1, 1⟩, ⟨2, 1⟩] := by
  have h : orderedTrialRows "maximize" [⟨1, 1⟩, ⟨2, 1⟩] = [⟨2, 1⟩, ⟨1, 1⟩] := by
    norm_num [orderedTrialRows, sortValuesByScore, nargsortAsc, List.insertionSort,
      List.orderedInsert, rowLeB, MAXIMIZE]
  refine ⟨h, ?_⟩
  rw [h]
  intro hEq
  injection hEq with h1 h2
  injection h1 with h3 h4
  exact absurd h3 (by decide)

/-- C5: a trial record is selected for backfill iff its eval stats are
the empty report and its training stats are not (so records with both
empty or both non-empty are never selected, hence never changed);
evaluation is attempted iff the record is selected, a validation set is
supplied with positive size, and a best checkpoint path resolves; when a
selected record fails those conditions its eval stats stay empty
(record unchanged); the training stats and parameters are never
modified. -/
theorem c5_backfill (validationSize : Option Nat)
    (bestModelPath : String → Option String)
    (evalOutcome : String → Option String)
    (t : TrialRecord) :
    ((backfillTrial validationSize bestModelPath evalOutcome t).2 = true ↔
      (backfillSelected t ∧ (∃ n, validationSize = some n ∧ 0 < n) ∧
        ∃ p, bestModelPath t.trial_dir = some p)) ∧
    (¬ backfillSelected t →
      backfillTrial validationSize bestModelPath evalOutcome t = (t, false)) ∧
    (backfillSelected t →
      (¬ (∃ n, validationSize = some n ∧ 0 < n) ∨ bestModelPath t.trial_dir = none) →
      (backfillTrial validationSize bestModelPath evalOutcome t).1 = t) ∧
    ((backfillTrial validationSize bestModelPath evalOutcome t).1.training_stats =
        t.training_stats ∧
      (backfillTrial validationSize bestModelPath evalOutcome t).1.parameters =
        t.parameters ∧
      (backfillTrial validationSize bestModelPath evalOutcome t).1.trial_dir =
        t.trial_dir) := by
  unfold backfillTrial
  by_cases hsel : backfillSelected t
  · rcases validationSize with _ | n
    · simp [hsel]
    · by_cases hn : 0 < n
      · rcases hb : bestModelPath t.trial_dir with _ | p
        · simp [hsel, hn, hb]
        · rcases he : evalOutcome t.trial_dir with _ | es
          · simp [hsel, hn, hb, he]
          · simp [hsel, hn, hb, he]
      · simp [hsel, hn]
  · simp [hsel]

/-- Witness for C5: a record with empty eval stats and non-empty
training stats, an available validation set, and a resolvable
checkpoint. -/
theorem c5_backfill_witness :
    (backfillTrial (some 5) (fun _ => some "ckpt") (fun _ => some "es")
        ⟨Cell.cstr "params", Cell.cstr "ts", Cell.cstr emptyJson, "dir"⟩).2 = true ↔
      (backfillSelected ⟨Cell.cstr "params", Cell.cstr "ts", Cell.cstr emptyJson, "dir"⟩ ∧
        (∃ n, (some 5 : Option Nat) = some n ∧ 0 < n) ∧
        ∃ p, (fun (_ : String) => some "ckpt") "dir" = some p) :=
  (c5_backfill (some 5) (fun _ => some "ckpt") (fun _ => some "es")
    ⟨Cell.cstr "params", Cell.cstr "ts", Cell.cstr emptyJson, "dir"⟩).1

theorem copytree_skips_dot_files (saveFiles : List String) :
    saveFiles.filter (fun f => !((ignore_dot_files saveFiles).contains f)) =
      saveFiles.filter (fun f => !startsWithDot f) := by
  apply List.filter_congr
  intro f hf
  cases hd : startsWithDot f <;>
    simp [ignore_dot_files, List.contains, List.mem_filter, hf, hd]

theorem tmp_name_ne_model (copyId : String) :
    ¬ ("model." ++ copyId ++ ".tmp") = "model" := by
  intro he
  have hl := congrArg String.length he
  simp only [String.length_append] at hl
  have h1 : ("model." : String).length = 6 := by decide
  have h2 : (".tmp" : String).length = 4 := by decide
  have h3 : ("model" : String).length = 5 := by decide
  omega

theorem alookup_fsRemove_self (fs : CkptDirState) (name : String) :
    alookup (fsRemove fs name) name = none := by
  induction fs with
  | nil => rfl
  | cons e rest ih =>
    obtain ⟨n, files⟩ := e
    simp only [fsRemove, List.filter_cons]
    by_cases h : n = name
    · have hb : (!(n == name)) = false := by simp [h]
      rw [hb]
      simp only [Bool.false_eq_true, if_false]
      exact ih
    · have hb : (!(n == name)) = true := by simp [h]
      rw [hb]
      simp only [if_true]
      simp only [alookup, if_neg h]
      exact ih

theorem fsRemove_of_absent (fs : CkptDirState) (name : String)
    (h : alookup fs name = none) : fsRemove fs name = fs := by
  induction fs with
  | nil => rfl
  | cons e rest ih =>
    obtain ⟨n, files⟩ := e
    by_cases hn : n = name
    · subst hn
      simp [alookup] at h
    · simp only [alookup, if_neg hn] at h
      simp only [fsRemove, List.filter_cons]
      have hb : (!(n == name)) = true := by simp [hn]
      rw [hb]
      simp only [if_true]
      exact congrArg (List.cons (n, files)) (ih h)

theorem fsRemove_cons_self (fs : CkptDirState) (name : String) (files : List String)
    (h : alookup fs name = none) : fsRemove ((name, files) :: fs) name = fs := by
  simp only [fsRemove, List.filter_cons]
  have hb : (!(name == name)) = false := by simp
  rw [hb]
  simp only [Bool.false_eq_true, if_false]
  exact fsRemove_of_absent fs name h

theorem fsRename_cons_self (fs : CkptDirState) (name new2 : String) (files : List String)
    (h : alookup fs name = none) :
    fsRename ((name, files) :: fs) name new2 = (new2, files) :: fs := by
  have hl : alookup ((name, files) :: fs) name = some files := by simp [alookup]
  simp only [fsRename, hl]
  rw [fsRemove_cons_self fs name files h]

/-- C6: checkpoint staging copies the model directory, excluding files
whose names start with a dot, to the temporary entry
`model.<copy-id>.tmp` and then renames it to `model`; the observable
states are exactly before-copy, after-copy, final, and no state before
the rename carries the final name (atomicity); when the rename fails the
temporary copy is removed, the directory is exactly as before (no
partial final-name entry, no temporary artifact), and no exception
propagates; when the rename succeeds the final name holds the copied
files and the temporary entry is gone. -/
theorem c6_checkpoint_staging (saveFiles : List String) (copyId : String)
    (renameFails : Bool) (fs : CkptDirState)
    (hmodel : alookup fs "model" = none)
    (htmp : alookup fs ("model." ++ copyId ++ ".tmp") = none) :
    (checkpoint_stage saveFiles copyId renameFails fs).states =
      [fs,
       ("model." ++ copyId ++ ".tmp",
         saveFiles.filter (fun f => !startsWithDot f)) :: fs,
       (checkpoint_stage saveFiles copyId renameFails fs).final] ∧
    alookup (("model." ++ copyId ++ ".tmp",
        saveFiles.filter (fun f => !startsWithDot f)) :: fs) "model" = none ∧
    (renameFails = true →
      (checkpoint_stage saveFiles copyId renameFails fs).final = fs ∧
      alookup (checkpoint_stage saveFiles copyId renameFails fs).final
        ("model." ++ copyId ++ ".tmp") = none ∧
      alookup (checkpoint_stage saveFiles copyId renameFails fs).final "model" = none) ∧
    (renameFails = false →
      (checkpoint_stage saveFiles copyId renameFails fs).final =
        ("model", saveFiles.filter (fun f => !startsWithDot f)) :: fs ∧
      alookup (checkpoint_stage saveFiles copyId renameFails fs).final
        ("model." ++ copyId ++ ".tmp") = none) ∧
    (checkpoint_stage saveFiles copyId renameFails fs).raised = false := by
  have hcopied := copytree_skips_dot_files saveFiles
  have hmid : alookup (("model." ++ copyId ++ ".tmp",
      saveFiles.filter (fun f => !startsWithDot f)) :: fs) "model" = none := by
    simp only [alookup, if_neg (tmp_name_ne_model copyId)]
    exact hmodel
  have hunf : checkpoint_stage saveFiles copyId renameFails fs =
      (if renameFails then
        ⟨[fs,
          ("model." ++ copyId ++ ".tmp",
            saveFiles.filter (fun f => !startsWithDot f)) :: fs, fs],
         fs, false⟩
      else
        ⟨[fs,
          ("model." ++ copyId ++ ".tmp",
            saveFiles.filter (fun f => !startsWithDot f)) :: fs,
          ("model", saveFiles.filter (fun f => !startsWithDot f)) :: fs],
         ("model", saveFiles.filter (fun f => !startsWithDot f)) :: fs, false⟩) := by
    unfold checkpoint_stage
    rw [hmodel]
    simp only [Option.isSome_none, Bool.false_eq_true, if_false, hcopied]
    cases renameFails
    · simp only [Bool.false_eq_true, if_false]
      rw [fsRename_cons_self fs ("model." ++ copyId ++ ".tmp") "model"
        (saveFiles.filter (fun f => !startsWithDot f)) htmp]
    · simp only [if_true]
      rw [fsRemove_cons_self fs ("model." ++ copyId ++ ".tmp")
        (saveFiles.filter (fun f => !startsWithDot f)) htmp]
  cases renameFails
  · simp only [Bool.false_eq_true, if_false] at hunf
    rw [hunf]
    refine ⟨rfl, hmid, ?_, ?_, rfl⟩
    · intro h
      exact Bool.noConfusion h
    · intro _
      refine ⟨rfl, ?_⟩
      have hne2 : ¬ ("model" = "model." ++ copyId ++ ".tmp") := by
        intro h
        exact tmp_name_ne_model copyId h.symm
      simp only [alookup, if_neg hne2]
      exact htmp
  · simp only [if_true] at hunf
    rw [hunf]
    refine ⟨rfl, hmid, ?_, ?_, rfl⟩
    · intro _
      exact ⟨rfl, htmp, hmodel⟩
    · intro h
      exact Bool.noConfusion h

/-- Witness for C6 at a concrete model directory with a hidden file and
a failing rename. -/
theorem c6_checkpoint_staging_witness :
    (checkpoint_stage ["weights", ".hidden"] "u1" true []).final = [] ∧
    alookup (checkpoint_stage ["weights", ".hidden"] "u1" true []).final
      ("model." ++ "u1" ++ ".tmp") = none ∧
    alookup (checkpoint_stage ["weights", ".hidden"] "u1" true []).final "model" = none :=
  (c6_checkpoint_staging ["weights", ".hidden"] "u1" true [] rfl rfl).2.2.1 rfl

theorem alookup_assocSet_self {α : Type} (l : List (String × α)) (k : String) (v : α) :
    alookup (assocSet l k v) k = some v := by
  induction l with
  | nil => simp [assocSet, alookup]
  | cons e rest ih =>
    obtain ⟨k2, w⟩ := e
    by_cases h : k2 = k
    · simp [assocSet, alookup, h]
    · simp [assocSet, alookup, h, ih]

theorem alookup_assocSet_ne {α : Type} (l : List (String × α)) (k k2 : String) (v : α)
    (h : ¬ k = k2) : alookup (assocSet l k v) k2 = alookup l k2 := by
  induction l with
  | nil => simp [assocSet, alookup, h]
  | cons e rest ih =>
    obtain ⟨k3, w⟩ := e
    by_cases h3 : k3 = k
    · subst h3
      simp [assocSet, alookup, h]
    · simp [assocSet, alookup, h3, ih]

theorem alookup_assocRemove_self {α : Type} (l : List (String × α)) (k : String) :
    alookup (assocRemove l k) k = none := by
  induction l with
  | nil => rfl
  | cons e rest ih =>
    obtain ⟨k2, w⟩ := e
    simp only [assocRemove, List.filter_cons]
    by_cases h : k2 = k
    · have hb : (!(k2 == k)) = false := by simp [h]
      rw [hb]
      simp only [Bool.false_eq_true, if_false]
      exact ih
    · have hb : (!(k2 == k)) = true := by simp [h]
      rw [hb]
      simp only [if_true]
      simp only [alookup, if_neg h]
      exact ih

theorem alookup_assocRemove_ne {α : Type} (l : List (String × α)) (k k2 : String)
    (h : ¬ k = k2) : alookup (assocRemove l k) k2 = alookup l k2 := by
  induction l with
  | nil => rfl
  | cons e rest ih =>
    obtain ⟨k3, w⟩ := e
    simp only [assocRemove, List.filter_cons]
    by_cases h3 : k3 = k
    · subst h3
      have hb : (!(k3 == k3)) = false := by simp
      rw [hb]
      simp only [Bool.false_eq_true, if_false]
      rw [show List.filter (fun e => !(e.1 == k3)) rest = assocRemove rest k3 from rfl]
      rw [ih]
      simp only [alookup, if_neg (fun hc => h hc)]
    · have hb : (!(k3 == k)) = true := by simp [h3]
      rw [hb]
      simp only [if_true]
      simp only [alookup]
      by_cases h32 : k3 = k2
      · simp [h32]
      · simp only [if_neg h32]
        exact ih

theorem tmp_suffix_ne (savePath : String) : ¬ (savePath ++ ".tmp") = savePath := by
  intro he
  have hl := congrArg String.length he
  simp only [String.length_append] at hl
  have h2 : (".tmp" : String).length = 4 := by decide
  omega

/-- C7: the move of a resumed checkpoint into the expected save path is
atomic with rollback: if the move fails, any partially moved content at
the save path is removed, the previous contents of the save path (backed
up to `<save_path>.tmp` when they existed) are restored byte-identically
(the lookup at the save path equals the original lookup exactly,
including the absent case), the temporary backup is gone, and the error
is re-raised; on success the save path holds the moved checkpoint
content, the temporary backup is removed, and no error is raised; paths
other than the save path and its backup are never touched. -/
theorem c7_resume_move_rollback (fs : PathFS) (savePath : String)
    (ckptContent : DirContent) (mv : MoveOutcome)
    (htmp : alookup fs (savePath ++ ".tmp") = none) :
    (∀ leftover, mv = .failure leftover →
      (resume_move fs savePath ckptContent mv).2 = true ∧
      alookup (resume_move fs savePath ckptContent mv).1 savePath = alookup fs savePath ∧
      alookup (resume_move fs savePath ckptContent mv).1 (savePath ++ ".tmp") = none) ∧
    (mv = .success →
      (resume_move fs savePath ckptContent mv).2 = false ∧
      alookup (resume_move fs savePath ckptContent mv).1 savePath = some ckptContent ∧
      alookup (resume_move fs savePath ckptContent mv).1 (savePath ++ ".tmp") = none) ∧
    (∀ q, ¬ q = savePath → ¬ q = (savePath ++ ".tmp") →
      alookup (resume_move fs savePath ckptContent mv).1 q = alookup fs q) := by
  have hne : ¬ (savePath ++ ".tmp") = savePath := tmp_suffix_ne savePath
  have hne2 : ¬ savePath = (savePath ++ ".tmp") := fun h => hne h.symm
  rcases h0 : alookup fs savePath with _ | c0
  · cases mv with
    | success =>
      have g1 : alookup (assocSet fs savePath ckptContent) (savePath ++ ".tmp") = none := by
        rw [alookup_assocSet_ne fs savePath _ ckptContent hne2]
        exact htmp
      have hval : resume_move fs savePath ckptContent .success =
          (assocSet fs savePath ckptContent, false) := by
        unfold resume_move
        simp only [h0, Option.isSome_none, Bool.false_eq_true, if_false, g1]
      refine ⟨?_, ?_, ?_⟩
      · intro leftover hmv
        exact MoveOutcome.noConfusion hmv
      · intro _
        rw [hval]
        exact ⟨rfl, alookup_assocSet_self fs savePath ckptContent, g1⟩
      · intro q hq1 _
        rw [hval]
        exact alookup_assocSet_ne fs savePath q ckptContent (fun h => hq1 h.symm)
    | failure leftover =>
      rcases leftover with _ | c
      · have hval : resume_move fs savePath ckptContent (.failure none) = (fs, true) := by
          unfold resume_move
          simp only [h0, Option.isSome_none, Bool.false_eq_true, if_false, htmp]
        refine ⟨?_, ?_, ?_⟩
        · intro leftover2 _
          rw [hval]
          exact ⟨rfl, h0, htmp⟩
        · intro hmv
          exact MoveOutcome.noConfusion hmv
        · intro q _ _
          rw [hval]
      · have g1 : alookup (assocSet fs savePath c) savePath = some c :=
          alookup_assocSet_self fs savePath c
        have g2 : alookup (assocRemove (assocSet fs savePath c) savePath)
            (savePath ++ ".tmp") = none := by
          rw [alookup_assocRemove_ne _ savePath _ hne2,
            alookup_assocSet_ne fs savePath _ c hne2]
          exact htmp
        have hval : resume_move fs savePath ckptContent (.failure (some c)) =
            (assocRemove (assocSet fs savePath c) savePath, true) := by
          unfold resume_move
          simp only [h0, Option.isSome_none, Bool.false_eq_true, if_false, g1,
            Option.isSome_some, if_true, g2]
        refine ⟨?_, ?_, ?_⟩
        · intro leftover2 _
          rw [hval]
          refine ⟨rfl, ?_, g2⟩
          rw [alookup_assocRemove_self]
        · intro hmv
          exact MoveOutcome.noConfusion hmv
        · intro q hq1 _
          rw [hval]
          rw [alookup_assocRemove_ne _ savePath q (fun h => hq1 h.symm),
            alookup_assocSet_ne fs savePath q c (fun h => hq1 h.symm)]
  · have hfs1 : (if (alookup fs savePath).isSome then
        assocRename fs savePath (savePath ++ ".tmp") else fs) =
        (savePath ++ ".tmp", c0) :: assocRemove fs savePath := by
      rw [h0]
      simp only [Option.isSome_some, if_true, assocRename, h0]
    cases mv with
    | success =>
      have g1 : alookup (assocSet ((savePath ++ ".tmp", c0) :: assocRemove fs savePath)
          savePath ckptContent) (savePath ++ ".tmp") = some c0 := by
        rw [alookup_assocSet_ne _ savePath _ ckptContent hne2]
        simp [alookup]
      have hval : resume_move fs savePath ckptContent .success =
          (assocRemove (assocSet ((savePath ++ ".tmp", c0) :: assocRemove fs savePath)
            savePath ckptContent) (savePath ++ ".tmp"), false) := by
        unfold resume_move
        simp only [h0, Option.isSome_some, if_true]
        simp only [assocRename, h0, g1, Option.isSome_some, if_true]
      refine ⟨?_, ?_, ?_⟩
      · intro leftover hmv
        exact MoveOutcome.noConfusion hmv
      · intro _
        rw [hval]
        refine ⟨rfl, ?_, alookup_assocRemove_self _ _⟩
        rw [alookup_assocRemove_ne _ _ _ hne,
          alookup_assocSet_self]
      · intro q hq1 hq2
        have hq1s : ¬ savePath = q := fun h => hq1 h.symm
        have hq2s : ¬ (savePath ++ ".tmp") = q := fun h => hq2 h.symm
        rw [hval]
        rw [alookup_assocRemove_ne _ _ q hq2s,
          alookup_assocSet_ne _ savePath q ckptContent hq1s]
        simp only [alookup, if_neg hq2s]
        exact alookup_assocRemove_ne fs savePath q hq1s
    | failure leftover =>
      rcases leftover with _ | c
      · have g1 : alookup ((savePath ++ ".tmp", c0) :: assocRemove fs savePath)
            savePath = none := by
          simp only [alookup, if_neg hne]
          exact alookup_assocRemove_self fs savePath
        have g2 : alookup ((savePath ++ ".tmp", c0) :: assocRemove fs savePath)
            (savePath ++ ".tmp") = some c0 := by
          simp [alookup]
        have hval : resume_move fs savePath ckptContent (.failure none) =
            ((savePath, c0) ::
              assocRemove ((savePath ++ ".tmp", c0) :: assocRemove fs savePath)
                (savePath ++ ".tmp"), true) := by
          unfold resume_move
          simp only [h0, Option.isSome_some, if_true]
          simp only [assocRename, h0, g1, Option.isSome_none, Bool.false_eq_true,
            if_false, g2, Option.isSome_some, if_true]
        refine ⟨?_, ?_, ?_⟩
        · intro leftover2 _
          rw [hval]
          refine ⟨rfl, ?_, ?_⟩
          · simp only [alookup, if_pos rfl, if_true, eq_self_iff_true, h0]
          · simp only [alookup, if_neg hne2]
            exact alookup_assocRemove_self _ _
        · intro hmv
          exact MoveOutcome.noConfusion hmv
        · intro q hq1 hq2
          have hq1s : ¬ savePath = q := fun h => hq1 h.symm
          have hq2s : ¬ (savePath ++ ".tmp") = q := fun h => hq2 h.symm
          rw [hval]
          simp only [alookup, if_neg hq1s]
          rw [alookup_assocRemove_ne _ _ q hq2s]
          simp only [alookup, if_neg hq2s]
          exact alookup_assocRemove_ne fs savePath q hq1s
      · have g1 : alookup (assocSet ((savePath ++ ".tmp", c0) :: assocRemove fs savePath)
            savePath c) savePath = some c :=
          alookup_assocSet_self _ savePath c
        have g2 : alookup (assocRemove (assocSet
            ((savePath ++ ".tmp", c0) :: assocRemove fs savePath) savePath c) savePath)
            (savePath ++ ".tmp") = some c0 := by
          rw [alookup_assocRemove_ne _ savePath _ hne2,
            alookup_assocSet_ne _ savePath _ c hne2]
          simp [alookup]
        have hval : resume_move fs savePath ckptContent (.failure (some c)) =
            ((savePath, c0) ::
              assocRemove (assocRemove (assocSet
                ((savePath ++ ".tmp", c0) :: assocRemove fs savePath) savePath c)
                savePath) (savePath ++ ".tmp"), true) := by
          unfold resume_move
          simp only [h0, Option.isSome_some, if_true]
          simp only [assocRename, h0, g1, Option.isSome_some, if_true, g2]
        refine ⟨?_, ?_, ?_⟩
        · intro leftover2 _
          rw [hval]
          refine ⟨rfl, ?_, ?_⟩
          · simp only [alookup, if_pos rfl, if_true, eq_self_iff_true, h0]
          · simp only [alookup, if_neg hne2]
            exact alookup_assocRemove_self _ _
        · intro hmv
          exact MoveOutcome.noConfusion hmv
        · intro q hq1 hq2
          have hq1s : ¬ savePath = q := fun h => hq1 h.symm
          have hq2s : ¬ (savePath ++ ".tmp") = q := fun h => hq2 h.symm
          rw [hval]
          simp only [alookup, if_neg hq1s]
          rw [alookup_assocRemove_ne _ _ q hq2s,
            alookup_assocRemove_ne _ savePath q hq1s,
            alookup_assocSet_ne _ savePath q c hq1s]
          simp only [alookup, if_neg hq2s]
          exact alookup_assocRemove_ne fs savePath q hq1s

/-- Witness for C7: an existing checkpoint is restored byte-identically
after a failed move that left partial content behind. -/
theorem c7_resume_move_rollback_witness :
    (resume_move [("save", [("w", "bytes0")])] "save" [("w", "bytes1")]
        (.failure (some [("w", "junk")]))).2 = true ∧
    alookup (resume_move [("save", [("w", "bytes0")])] "save" [("w", "bytes1")]
        (.failure (some [("w", "junk")]))).1 "save" =
      alookup [("save", [("w", "bytes0")])] "save" ∧
    alookup (resume_move [("save", [("w", "bytes0")])] "save" [("w", "bytes1")]
        (.failure (some [("w", "junk")]))).1 ("save" ++ ".tmp") = none :=
  (c7_resume_move_rollback [("save", [("w", "bytes0")])] "save" [("w", "bytes1")]
    (.failure (some [("w", "junk")])) rfl).1 (some [("w", "junk")]) rfl

/-- C8 (behaviour at the failing input): `_run_experiment` writes the
base experiment configuration — not the sampled hyperparameter record —
to `trial_hyperparameters.json`: the written value always equals the
base config regardless of the sampled values, and at a concrete input
whose sampled record is `{"lr": 1}` over base config `{"trainer": {}}`
the file content differs from the sampled record. -/
theorem c8_trial_hyperparameters_file :
    (∀ (substitute : JVal → PyDict → JVal) (decodeCtx : DecodeCtx)
        (rawConfig : PyDict) (baseConfig : JVal),
      (run_experiment_prep substitute decodeCtx rawConfig baseConfig).map
          (fun p => p.writtenHyperparameters) =
        (run_experiment_prep substitute decodeCtx rawConfig baseConfig).map
          (fun _ => baseConfig)) ∧
    ∃ p, run_experiment_prep (fun b _ => b) [] [("lr", .jnum 1)]
          (.jobj [("trainer", .jobj [])]) = some p ∧
      p.sampled = [("lr", .jnum 1)] ∧
      p.writtenHyperparameters = .jobj [("trainer", .jobj [])] ∧
      ¬ p.writtenHyperparameters = .jobj p.sampled := by
  constructor
  · intro substitute decodeCtx rawConfig baseConfig
    unfold run_experiment_prep
    cases decode_values rawConfig decodeCtx <;> rfl
  · refine ⟨⟨[("lr", .jnum 1)], .jobj [("trainer", .jobj [])],
      .jobj [("trainer", .jobj [])]⟩, rfl, rfl, rfl, ?_⟩
    intro h
    injection h with h2
    injection h2 with h3 h4
    injection h3 with h5 h6
    exact absurd h5 (by decide)

/-- C10: no code path assigns a `hyperopt_sampler` attribute (it is in
neither the `__init__` nor the `execute` assignment sets), so calling
`sort_hyperopt_results` on an executor with any non-empty result list
raises `AttributeError` and the helper can never return a sorted list. -/
theorem c10_sort_hyperopt_results_attribute_error :
    (¬ "hyperopt_sampler" ∈ rayTuneExecutorInitAttrs ∧
      ¬ "hyperopt_sampler" ∈ rayTuneExecutorExecuteAttrs) ∧
    (∀ (samplerGoal : String) (results : List TrialRow), ¬ results = [] →
      sort_hyperopt_results rayTuneExecutorInitAttrs samplerGoal results =
        .error "AttributeError") := by
  refine ⟨⟨by decide, by decide⟩, ?_⟩
  intro samplerGoal results _
  rfl

/-- Witness for C10 at a singleton result list. -/
theorem c10_sort_hyperopt_results_attribute_error_witness :
    sort_hyperopt_results rayTuneExecutorInitAttrs "maximize" [⟨1, 0⟩] =
      .error "AttributeError" :=
  c10_sort_hyperopt_results_attribute_error.2 "maximize" [⟨1, 0⟩]
    (List.cons_ne_nil _ _)
